import Mathlib

/-!
Shallow embedding of the core of `lsscsi.c` (doug-gilbert/lsscsi):
the address-tuple codec (`parse_colon_list`, `cmp_hctl`, `tuple2string`),
the SAM-5 LUN tagging algorithm (`tag_lun`), the directory-scan predicate
and comparator (`sdev_dir_scan_select`, `sdev_scandir_sort`), the attribute
accessor (`get_value`) and the host transport classifier (`transport_init`).

Strings are modelled as `List Char`; C machine integers as `Int`/`Nat` with
explicit wrap-around (`% 2^64`) where the code relies on it.  Fixed-size C
buffers are assumed large enough for the data written into them (the claims
only exercise short strings); `sscanf` integer-overflow saturation is not
modelled, and theorems restrict numeric fields to their C ranges instead.
The sysfs filesystem is modelled as explicit lookup functions.
-/

namespace Lsscsi

/-- A `String` literal as a character list (all core code works on
`List Char`). -/
def s2l (s : String) : List Char := s.toList

/-- C `isdigit` for the ASCII range used by the program. -/
def isDigitC (c : Char) : Bool := 48 ≤ c.toNat && c.toNat ≤ 57

/-- C `isspace` (the characters `sscanf` skips before a conversion). -/
def isSpaceC (c : Char) : Bool :=
  c.toNat = 32 || c.toNat = 9 || c.toNat = 10 || c.toNat = 11 ||
  c.toNat = 12 || c.toNat = 13

/-- Numeric value of an ASCII digit. -/
def digitVal (c : Char) : Nat := c.toNat - 48

/-- The ASCII digit for a value below ten (as produced by `printf` `%d`). -/
def digitChar : Nat → Char
  | 0 => '0' | 1 => '1' | 2 => '2' | 3 => '3' | 4 => '4'
  | 5 => '5' | 6 => '6' | 7 => '7' | 8 => '8' | 9 => '9'
  | _ => '*'

/-- Decimal rendering, fuelled so that it is structurally recursive (the
kernel can then evaluate it); `natRepr` supplies fuel `n + 1`, which
never runs out because the argument shrinks at every step. -/
def natReprAux : Nat → Nat → List Char
  | 0, _ => []
  | fuel + 1, n =>
    if n < 10 then [digitChar n]
    else natReprAux fuel (n / 10) ++ [digitChar (n % 10)]

/-- Decimal rendering of a natural number, as `printf` `%d`/`%u` writes it. -/
def natRepr (n : Nat) : List Char := natReprAux (n + 1) n

/-- Decimal rendering of a C `int` (`printf` `%d`). -/
def intRepr (i : Int) : List Char :=
  if i < 0 then '-' :: natRepr (-i).toNat else natRepr i.toNat

/-- Value of a digit string (most significant digit first). -/
def digitsVal (ds : List Char) : Nat :=
  ds.foldl (fun a c => 10 * a + digitVal c) 0

/-- The ASCII hex digit for a value below sixteen (`printf` `%x`). -/
def hexDigitChar : Nat → Char
  | 0 => '0' | 1 => '1' | 2 => '2' | 3 => '3' | 4 => '4'
  | 5 => '5' | 6 => '6' | 7 => '7' | 8 => '8' | 9 => '9'
  | 10 => 'a' | 11 => 'b' | 12 => 'c' | 13 => 'd' | 14 => 'e' | 15 => 'f'
  | _ => '*'

/-- Hex rendering, fuelled like `natReprAux`. -/
def hexReprAux : Nat → Nat → List Char
  | 0, _ => []
  | fuel + 1, n =>
    if n < 16 then [hexDigitChar n]
    else hexReprAux fuel (n / 16) ++ [hexDigitChar (n % 16)]

/-- Lower-case hex rendering of a natural number (`printf` `%x`). -/
def hexRepr (n : Nat) : List Char := hexReprAux (n + 1) n

/-- Zero-padded hex rendering (`printf` `%0wx`: minimum width `w`). -/
def hexPad (w n : Nat) : List Char :=
  List.replicate (w - (hexRepr n).length) '0' ++ hexRepr n

/-- C `strstr`: does `needle` occur as a contiguous substring of `hay`? -/
def containsSub (needle : List Char) : List Char → Bool
  | [] => needle.isEmpty
  | c :: r => needle.isPrefixOf (c :: r) || containsSub needle r

/-- C `strchr` (non-null result): does `ch` occur in the list? -/
def containsChar (ch : Char) : List Char → Bool
  | [] => false
  | c :: r => c = ch || containsChar ch r

/-- C `strchr(s, ch)` followed by `+ 1`: the suffix just after the first
occurrence of `ch`, or `none` when `ch` does not occur. -/
def afterChar (ch : Char) : List Char → Option (List Char)
  | [] => none
  | c :: r => if c = ch then some r else afterChar ch r

/-- C `toupper` restricted to ASCII. -/
def toUpperC (c : Char) : Char :=
  if 97 ≤ c.toNat ∧ c.toNat ≤ 122 then Char.ofNat (c.toNat - 32) else c

/-- `sscanf` engine for a digit run: value and remainder of the list,
`none` when the list does not start with a digit. -/
def scanNatRaw (l : List Char) : Option (Nat × List Char) :=
  match l.takeWhile isDigitC with
  | [] => none
  | _ :: _ => some (digitsVal (l.takeWhile isDigitC), l.dropWhile isDigitC)

/-- `sscanf` `%d`: skip spaces, optional single sign, then digits.
Overflow beyond the C `int` range is not modelled; theorems restrict
values to that range. -/
def scanInt (l : List Char) : Option (Int × List Char) :=
  match l.dropWhile isSpaceC with
  | [] => none
  | c :: r =>
    if c = '-' then (scanNatRaw r).map (fun p => (-(p.1 : Int), p.2))
    else if c = '+' then (scanNatRaw r).map (fun p => ((p.1 : Int), p.2))
    else (scanNatRaw (c :: r)).map (fun p => ((p.1 : Int), p.2))

/-- `sscanf` `%` `SCNu64` (`strtoull`): as `scanInt` but the value is
reduced modulo `2^64`, a leading minus sign negating it modulo `2^64`. -/
def scanU64 (l : List Char) : Option (Nat × List Char) :=
  match l.dropWhile isSpaceC with
  | [] => none
  | c :: r =>
    if c = '-' then
      (scanNatRaw r).map (fun p => ((2 ^ 64 - p.1 % 2 ^ 64) % 2 ^ 64, p.2))
    else if c = '+' then (scanNatRaw r).map (fun p => (p.1 % 2 ^ 64, p.2))
    else (scanNatRaw (c :: r)).map (fun p => (p.1 % 2 ^ 64, p.2))

/-- `struct addr_hctl`: `h`, `c`, `t` are C `int`s, `l` is a `uint64_t`
(modelled as `Nat` below `2^64`), `lun_arr` the 8-byte LUN array. -/
structure addr_hctl where
  h : Int
  c : Int
  t : Int
  l : Nat
  lun_arr : List Nat
deriving DecidableEq, Repr

/-- `UINT64_LAST`: `(uint64_t)~0`. -/
def UINT64_LAST : Nat := 2 ^ 64 - 1

/-- `NVME_HOST_NUM` (0x7fff), the sentinel host number marking NVMe. -/
def NVME_HOST_NUM : Int := 0x7fff

/-- `invalidate_hctl`: `-1` in the integer fields, `UINT64_LAST` in `l`,
`0xff` in all eight LUN bytes. -/
def invalidate_hctl : addr_hctl :=
  ⟨-1, -1, -1, UINT64_LAST, List.replicate 8 0xff⟩

/-- The `lun_arr` derivation at the end of `parse_colon_list`:
`for (k = 0; k < 8; k += 2, z >>= 16) sg_put_unaligned_be16((uint16_t)z, lun_arr + k)`
(four 16-bit words of `l`, least significant word first, each word written
big-endian). -/
def lunArrOf (l : Nat) : List Nat :=
  [(l >>> 8) % 256, l % 256,
   (l >>> 24) % 256, (l >>> 16) % 256,
   (l >>> 40) % 256, (l >>> 32) % 256,
   (l >>> 56) % 256, (l >>> 48) % 256]

/-- The suffix loop of the NVMe arm of `parse_colon_list`: consume
`c<digits>` (stored as value plus one into `t`) and `n<digits>` (stored
into `l`), stopping at anything else.  The `p<digits>` arm of the C code
checks `1 == sscanf(colon_list + 1, "%*d%n", &k)`, but `%*d` suppresses
assignment so `sscanf` returns 0, never 1: the `p` arm therefore always
falls into its `else break`, which this model reflects by stopping. -/
def nvmeLoopA : Nat → List Char → addr_hctl → addr_hctl
  | 0, _, tp => tp
  | fuel + 1, cl, tp =>
    match cl with
    | [] => tp
    | ch :: r =>
      if ch = 'c' then
        match scanInt r with
        | some (v, rest) => nvmeLoopA fuel rest { tp with t := v + 1 }
        | none => tp
      else if ch = 'n' then
        match scanInt r with
        | some (v, rest) =>
          nvmeLoopA fuel rest { tp with l := (v % (2 ^ 64 : Int)).toNat }
        | none => tp
      else tp

/-- Entry point of the suffix loop.  Every iteration consumes at least
the tag character (`scanInt` never lengthens its input, see
`scanInt_length`), so fuel `cl.length + 1` never runs out and the
fuelled loop coincides with the C `while` loop. -/
def nvmeLoop (cl : List Char) (tp : addr_hctl) : addr_hctl :=
  nvmeLoopA (cl.length + 1) cl tp

/-- The non-NVMe arm of `parse_colon_list`: `sscanf` an `int`, `strchr` to
the next `:` (searching from the start of the current field), three times,
then `sscanf` the 64-bit LUN and derive `lun_arr`. -/
def parseScsi (cl : List Char) (prior : addr_hctl) : Option addr_hctl :=
  match scanInt cl with
  | none => none
  | some (hv, _) =>
    match afterChar ':' cl with
    | none => none
    | some r1 =>
      match scanInt r1 with
      | none => none
      | some (cv, _) =>
        match afterChar ':' r1 with
        | none => none
        | some r2 =>
          match scanInt r2 with
          | none => none
          | some (tv, _) =>
            match afterChar ':' r2 with
            | none => none
            | some r3 =>
              match scanU64 r3 with
              | none => none
              | some (lv, _) =>
                some { prior with h := hv, c := cv, t := tv, l := lv,
                                  lun_arr := lunArrOf lv }

/-- The NVMe arm of `parse_colon_list` (entered when the first character
uppercases to `N`): `h` is set to `NVME_HOST_NUM`, the literal prefix
`nvme` and the controller minor number are required, then the suffix
loop runs; it always returns successfully. -/
def parseNvme (cl : List Char) (prior : addr_hctl) : Option addr_hctl :=
  let tp0 := { prior with h := NVME_HOST_NUM }
  if cl.take 4 = s2l "nvme" then
    match scanInt (cl.drop 4) with
    | some (cv, rest) => some (nvmeLoop rest { tp0 with c := cv })
    | none => none
  else none

/-- `parse_colon_list` (lsscsi.c:2031-2106).  `prior` is the value of
`*outp` before the call (the C function writes through the pointer, and
fields without a corresponding input piece keep their previous value). -/
def parse_colon_list (cl : List Char) (prior : addr_hctl) : Option addr_hctl :=
  match cl with
  | [] => none
  | c :: _ => if toUpperC c = 'N' then parseNvme cl prior else parseScsi cl prior

/-- `cmp_hctl` (lsscsi.c:819-834): nested comparison of the `h`, `c`,
`t`, `l` fields returning `-1`, `0` or `1`. -/
def cmp_hctl (le ri : addr_hctl) : Int :=
  if le.h = ri.h then
    if le.c = ri.c then
      if le.t = ri.t then
        if le.l = ri.l then 0 else if le.l < ri.l then -1 else 1
      else if le.t < ri.t then -1 else 1
    else if le.c < ri.c then -1 else 1
  else if le.h < ri.h then -1 else 1

/-- `sdev_scandir_sort` (lsscsi.c:4769-4791): parse both directory-entry
names, a failed left parse sorts first, a failed right parse sorts last,
otherwise compare the tuples.  The C local `struct addr_hctl` is
uninitialised stack memory; the claims only exercise inputs on which
every field is assigned, and the model passes `invalidate_hctl`. -/
def sdev_scandir_sort (a b : List Char) : Int :=
  match parse_colon_list a invalidate_hctl with
  | none => -1
  | some lh =>
    match parse_colon_list b invalidate_hctl with
    | none => 1
    | some rh => cmp_hctl lh rh

/-- Insertion of one name into a list sorted by a scandir comparator. -/
def cmpInsert (cmp : List Char → List Char → Int) (x : List Char) :
    List (List Char) → List (List Char)
  | [] => [x]
  | y :: ys => if cmp x y ≤ 0 then x :: y :: ys else y :: cmpInsert cmp x ys

/-- Sorting a directory listing with a scandir comparator (the effect of
`scandir(..., sdev_scandir_sort)` on the entry names). -/
def cmpSort (cmp : List Char → List Char → Int) :
    List (List Char) → List (List Char)
  | [] => []
  | x :: xs => cmpInsert cmp x (cmpSort cmp xs)

/-- `tag_lun_helper` (lsscsi.c:3658-3665): write `num` tags for 2-byte
unit `kk`; the first tag of a unit after the first is `2` (separator),
every other written tag is `1`. -/
def tag_lun_helper (arr : List Nat) (kk num : Nat) : List Nat :=
  (List.range num).foldl
    (fun a j => a.set (2 * kk + j) (if kk > 0 ∧ j = 0 then 2 else 1)) arr

/-- The `for (k = 0; k < 4; ...)` loop of `tag_lun`, walking the 8-byte
LUN in 2-byte units; `fuel` is the number of units still allowed
(4 at entry).  Only addressing method 0 with a non-zero bus id sets
`next_level`; every other branch leaves the loop after its unit. -/
def tagLoop (lunp : List Nat) : Nat → Nat → List Nat → List Nat
  | 0, _, arr => arr
  | fuel + 1, k, arr =>
    let b0 := lunp.getD (2 * k) 0
    let a_method := (b0 >>> 6) % 4
    if a_method = 0 then
      let bus_id := b0 % 64
      let arr1 := tag_lun_helper arr k 2
      if bus_id ≠ 0 then tagLoop lunp fuel (k + 1) arr1 else arr1
    else if a_method = 1 then tag_lun_helper arr k 2
    else if a_method = 2 then tag_lun_helper arr k 2
    else
      let len_fld := (b0 >>> 4) % 4
      let e_a_method := b0 % 16
      if len_fld = 0 ∧ e_a_method = 1 then tag_lun_helper arr k 2
      else if len_fld = 1 ∧ e_a_method = 2 then tag_lun_helper arr k 4
      else if len_fld = 2 ∧ e_a_method = 2 then tag_lun_helper arr k 6
      else if len_fld = 3 ∧ e_a_method = 0xf then
        arr.set (2 * k) (if k > 0 then 2 else 1)
      else if len_fld < 2 then tag_lun_helper arr k 4
      else
        let arr1 := tag_lun_helper arr k 6
        if len_fld = 3 then (arr1.set (2 * k + 6) 1).set (2 * k + 7) 1
        else arr1

/-- `tag_lun` (lsscsi.c:3667-3736): tag the 8 LUN bytes according to
SAM-5; a leading `0xff 0xff` unit short-circuits to tags `1,1,0,...,0`. -/
def tag_lun (lunp : List Nat) : List Nat :=
  let arr0 := List.replicate 8 0
  if lunp.getD 0 0 = 0xff ∧ lunp.getD 1 0 = 0xff then
    (arr0.set 0 1).set 1 1
  else tagLoop lunp 4 0 arr0

/-- `lun_word_flip` (lsscsi.c:628-642): reverse the order of the four
16-bit words of a 64-bit value.  The C `res |= ...` steps combine
disjoint 16-bit fields, so the or is written as addition (equal on
disjoint operands, and kernel-reducible). -/
def lun_word_flip (inp : Nat) : Nat :=
  let w := fun i => (inp >>> (16 * i)) % 65536
  ((w 0 * 65536 + w 1) * 65536 + w 2) * 65536 + w 3

/-- The hex loop of `tuple2string` under a single `--lunhex`: walk the
tag array, stop at tag 0, prefix `_` when the tag exceeds 1, and print
each selected LUN byte as two hex digits. -/
def lunHexTagged : List (Nat × Nat) → List Char
  | [] => []
  | (ta, byte) :: rest =>
    if ta = 0 then []
    else (if ta > 1 then ['_'] else []) ++ hexPad 2 byte ++ lunHexTagged rest

/-- `tuple2string` (lsscsi.c:643-714).  Bits 3..0 of `sel_mask` select
`h`, `c`, `t`, `l`; bits 5..4 are the `--lunhex` level.  The C bit tests
`sel_mask & 2^k` are written `sel_mask / 2^k % 2 = 1` (the same bit, but
kernel-reducible), and `(sel_mask >> 4) & 0x3` is `sel_mask / 16 % 4`.
Buffer-capacity truncation (`blen`) is not modelled: the claims only
produce short strings. -/
def tuple2string (tp : addr_hctl) (sel_mask : Nat) : List Char :=
  let is_nvme := tp.h = NVME_HOST_NUM
  let p1 := if sel_mask / 8 % 2 = 1 then
      (if is_nvme then s2l "N" else intRepr tp.h) else []
  let got1 := sel_mask / 8 % 2 = 1
  let p2 := if sel_mask / 4 % 2 = 1 then
      p1 ++ (if got1 then [':'] else []) ++ intRepr tp.c else p1
  let got2 := got1 ∨ sel_mask / 4 % 2 = 1
  let p3 := if sel_mask / 2 % 2 = 1 then
      p2 ++ (if got2 then [':'] else []) ++ intRepr tp.t else p2
  let got3 := got2 ∨ sel_mask / 2 % 2 = 1
  let lunhex := sel_mask / 16 % 4
  if ¬is_nvme ∧ sel_mask % 2 = 1 then
    if lunhex = 1 then
      p3 ++ (if got3 then [':'] else []) ++ s2l "0x" ++
        lunHexTagged ((tag_lun tp.lun_arr).zip tp.lun_arr)
    else if lunhex > 1 then
      p3 ++ (if got3 then [':'] else []) ++ s2l "0x" ++
        hexPad 16 (lun_word_flip tp.l)
    else if tp.l = UINT64_LAST then
      p3 ++ (if got3 then s2l ":-1" else s2l "-1")
    else p3 ++ (if got3 then [':'] else []) ++ natRepr tp.l
  else if sel_mask % 2 = 1 then
    if lunhex = 1 then
      p3 ++ (if got3 then [':'] else []) ++ s2l "0x" ++ hexPad 4 (tp.l % 2 ^ 32)
    else if lunhex > 1 then
      p3 ++ (if got3 then [':'] else []) ++ s2l "0x" ++ hexPad 8 (tp.l % 2 ^ 32)
    else if tp.l = 2 ^ 32 - 1 then
      p3 ++ (if got3 then s2l ":-1" else s2l "-1")
    else p3 ++ (if got3 then [':'] else []) ++ natRepr (tp.l % 2 ^ 32)
  else p3

/-- `sdev_dir_scan_select` (lsscsi.c:4138-4174).  The globals
`filter_active` and `filter` are passed explicitly; the uninitialised
local `struct addr_hctl s_hctl` is modelled by `invalidate_hctl` (every
accepted entry assigns all fields, so the initial value is unobservable). -/
def sdev_dir_scan_select (filter_active : Bool) (filter : addr_hctl)
    (name : List Char) : Bool :=
  if containsSub (s2l "mt") name then false
  else if containsSub (s2l "ot") name then false
  else if containsSub (s2l "gen") name then false
  else if (s2l "host").isPrefixOf name then false
  else if (s2l "target").isPrefixOf name then false
  else if containsChar ':' name then
    if filter_active then
      match parse_colon_list name invalidate_hctl with
      | none => false
      | some s =>
        if (filter.h = -1 ∨ s.h = filter.h) ∧ (filter.c = -1 ∨ s.c = filter.c) ∧
           (filter.t = -1 ∨ s.t = filter.t) ∧
           (filter.l = UINT64_LAST ∨ s.l = filter.l) then true
        else false
    else true
  else false

/-- `fgets(value, n, f)` on an open pseudo-file: up to `n - 1` characters,
stopping after a newline. -/
def takeLine : Nat → List Char → List Char
  | 0, _ => []
  | _, [] => []
  | n + 1, c :: r => c :: (if c = '\n' then [] else takeLine n r)

/-- The newline strip at the end of `get_value`: remove one trailing
newline when present. -/
def stripNl (l : List Char) : List Char :=
  if l.getLast? = some '\n' then l.dropLast else l

/-- `get_value` (lsscsi.c:1324-1350) over a filesystem modelled as a map
from path to file contents.  A missing file gives `none` (the C `false`);
an existing file whose first `fgets` returns no data (empty pseudo-file)
gives the empty string with success; otherwise the first line is read and
a single trailing newline stripped. -/
def get_value (files : List Char → Option (List Char))
    (dir_name base_name : List Char) (max_value_len : Nat) :
    Option (List Char) :=
  match files (dir_name ++ '/' :: base_name) with
  | none => none
  | some content =>
    match content with
    | [] => some []
    | _ :: _ => some (stripNl (takeLine (max_value_len - 1) content))

/-- Index of the first occurrence of `needle` in `hay` (C `strstr`). -/
def subPos (needle : List Char) : List Char → Option Nat
  | [] => if needle.isEmpty then some 0 else none
  | c :: r =>
    if needle.isPrefixOf (c :: r) then some 0 else (subPos needle r).map (· + 1)

/-- Index of the first occurrence of a character (C `strchr`). -/
def charPos (ch : Char) : List Char → Option Nat
  | [] => none
  | c :: r => if c = ch then some 0 else (charPos ch r).map (· + 1)

/-- The sysfs filesystem as seen by `transport_init`: directory-existence
probes (`stat`), attribute reads (`get_value`, with buffers assumed large
enough), `readlink`, and the results of the three helper scans
(`sas_low_phy_scan`, `get_local_srp_gid`, `get_usb_devname`). -/
structure Sysfs where
  isDir : List Char → Bool
  isDirOrLink : List Char → Bool
  attr : List Char → List Char → Option (List Char)
  readlinkF : List Char → Option (List Char)
  sasLowPhy : List Char → Option (List Char)
  srpGid : Int → List Char
  usbDevname : List Char → Option (List Char)

/-- Outcome of the SBP (FireWire) `do { ... } while (0)` block of
`transport_init`: no match before `transport_id` is assigned, a partial
match (a `break` after `transport_id = TRANSPORT_SBP`), or full success
carrying the assembled summary string. -/
inductive SbpRes where
  | noMatch
  | partialMatch
  | success (b : List Char)
deriving DecidableEq, Repr

/-- The SBP block of `transport_init` (lsscsi.c:2295-2327): resolve the
`scsi_host/<name>/device` symlink, require `/fw-host` in the target,
truncate after the FireWire host segment, check the rebuilt path fits the
384-byte buffer, and read the 18-character `host_id/guid` attribute. -/
def sbpStep (fs : Sysfs) (devname : List Char) : SbpRes :=
  match fs.readlinkF (s2l "/sys/class/scsi_host/" ++ devname ++ s2l "/device") with
  | none => .noMatch
  | some buff2 =>
    match subPos (s2l "/fw-host") buff2 with
    | none => .noMatch
    | some i =>
      match charPos '/' (buff2.drop (i + 1)) with
      | none => .partialMatch
      | some j =>
        let trunc := buff2.take (i + 1 + j)
        let dir := s2l "/sys/class/scsi_host/" ++ devname ++ ['/']
        if dir.length + trunc.length + 12 + 2 > 384 then .partialMatch
        else
          match fs.attr (dir ++ trunc) (s2l "host_id/guid") with
          | some g =>
            if g.length = 18 then .success (s2l "sbp:" ++ (g.drop 2).take 120)
            else .partialMatch
          | none => .partialMatch

/-- `transport_id` values (lsscsi.c:57-69). -/
inductive TransportId where
  | unknown | spi | fc | sas | sas_class | iscsi | sbp | usb | ata | sata
  | fcoe | srp | pcie
deriving DecidableEq, Repr

/-- The iSCSI / USB / ATA tail of `transport_init` (lsscsi.c:2329-2366)
and its final `return false`; `tid` is the value of the global
`transport_id` when this point is reached. -/
def transportTail (fs : Sysfs) (devname : List Char) (tid : TransportId) :
    Bool × TransportId × List Char :=
  if fs.isDir (s2l "/sys/class/iscsi_host/" ++ devname) then
    (true, .iscsi, s2l "iscsi:")
  else
    match fs.usbDevname devname with
    | some cp => (true, .usb, s2l "usb:" ++ cp)
    | none =>
      match fs.attr (s2l "/sys/class/scsi_host/" ++ devname) (s2l "proc_name") with
      | some wd =>
        if wd = s2l "ahci" then (true, .sata, s2l "sata:")
        else if containsSub (s2l "ata") wd then
          if (s2l "sata").isPrefixOf wd then (true, .sata, s2l "sata:")
          else (true, .ata, s2l "ata:")
        else (false, tid, [])
      | none => (false, tid, [])

/-- `transport_init` (lsscsi.c:2194-2367).  `tid0` is the value of the
global `transport_id` at entry; the result is the returned boolean, the
global after the call, and the contents written into the caller's summary
buffer `b` (empty when never written). -/
def transport_init (fs : Sysfs) (devname : List Char) (tid0 : TransportId) :
    Bool × TransportId × List Char :=
  if fs.isDir (s2l "/sys/class/spi_host/" ++ devname) then
    (true, .spi, s2l "spi:")
  else if fs.isDir (s2l "/sys/class/fc_host/" ++ devname) then
    let fcdir := s2l "/sys/class/fc_host/" ++ devname
    let hasOver := match fs.attr fcdir (s2l "symbolic_name") with
      | some wd => containsSub (s2l " over ") wd
      | none => false
    let tid1 := if hasOver then TransportId.fcoe else tid0
    let b1 : List Char := if hasOver then s2l "fcoe:" else []
    let tid2 := if tid1 ≠ .fcoe then TransportId.fc else tid1
    let b2 := if tid1 ≠ .fcoe then s2l "fc:" else b1
    match fs.attr fcdir (s2l "port_name") with
    | none => (false, tid2, b2)
    | some pn =>
      match fs.attr fcdir (s2l "port_id") with
      | none => (false, tid2, b2 ++ pn ++ [','])
      | some pid => (true, tid2, b2 ++ pn ++ [','] ++ pid)
  else if fs.isDir (s2l "/sys/class/srp_host/" ++ devname) then
    let gid := match (s2l "host").isPrefixOf devname, scanInt (devname.drop 4) with
      | true, some (hn, _) => fs.srpGid hn
      | _, _ => []
    (true, .srp, s2l "srp:" ++ gid)
  else if fs.isDirOrLink (s2l "/sys/class/sas_host/" ++ devname) then
    match fs.sasLowPhy (s2l "/sys/class/sas_host/" ++ devname ++ s2l "/device") with
    | none => (false, .sas, s2l "sas:")
    | some phy =>
      match fs.attr (s2l "/sys/class/sas_phy/" ++ phy) (s2l "sas_address") with
      | some v => (true, .sas, s2l "sas:" ++ v)
      | none => (false, .sas, s2l "sas:")
  else if fs.isDir (s2l "/sys/class/scsi_host/" ++ devname ++ s2l "/device/sas/ha") then
    match fs.attr (s2l "/sys/class/scsi_host/" ++ devname ++ s2l "/device/sas/ha")
        (s2l "device_name") with
    | some v => (true, .sas_class, s2l "sas:" ++ v)
    | none => (false, .sas_class, s2l "sas:")
  else
    match sbpStep fs devname with
    | .success b => (true, .sbp, b)
    | .partialMatch => transportTail fs devname .sbp
    | .noMatch => transportTail fs devname tid0

/-! ### Spec-side definitions (from the specification's words, for
refinement comparisons). -/

/-- Three-way comparison of two `Int`s as an `Ordering`. -/
def cmpOrd (x y : Int) : Ordering :=
  if x < y then .lt else if x = y then .eq else .gt

/-- Three-way comparison of two `Nat`s as an `Ordering`. -/
def cmpOrdN (x y : Nat) : Ordering :=
  if x < y then .lt else if x = y then .eq else .gt

/-- Spec: lexicographic comparison over `(host, channel, target, lun)`
in that field order. -/
def specCompare (a b : addr_hctl) : Ordering :=
  (cmpOrd a.h b.h).then ((cmpOrd a.c b.c).then
    ((cmpOrd a.t b.t).then (cmpOrdN a.l b.l)))

/-- An `Ordering` as the -1 / 0 / 1 convention of C comparators. -/
def ordToInt : Ordering → Int
  | .lt => -1
  | .eq => 0
  | .gt => 1

/-- Split a list at every colon (for the spec's reading of
"colon-separated fields"). -/
def splitColon : List Char → List (List Char)
  | [] => [[]]
  | c :: r =>
    if c = ':' then [] :: splitColon r
    else
      match splitColon r with
      | [] => [[c]]
      | f :: fs => (c :: f) :: fs

/-- Spec: a single integer field (optional sign, then at least one
digit, nothing else). -/
def isIntField (f : List Char) : Bool :=
  let g := match f with
    | '-' :: r => r
    | '+' :: r => r
    | r => r
  !g.isEmpty && g.all isDigitC

/-- Spec: the string consists of exactly four colon-separated integer
fields. -/
def fourColonIntFields (s : List Char) : Bool :=
  let fs := splitColon s
  fs.length = 4 && fs.all isIntField

/-- Spec: the 64-bit LUN split into four 16-bit words in SAM-5 order
(least significant word first), each word written big-endian. -/
def lunBytesSpec (l : Nat) : List Nat :=
  (List.range 4).flatMap
    (fun k => [((l >>> (16 * k)) % 65536) / 256, ((l >>> (16 * k)) % 65536) % 256])

/-- Spec reading of the device-scan selection predicate as amended: no
legacy `mt`/`ot`/`gen` substring, no `host`/`target` prefix, a colon in
the name, and (when the filter is active) a parsed tuple agreeing with
the filter on every non-wildcard field. -/
def sdev_select_spec (filter_active : Bool) (filter : addr_hctl)
    (name : List Char) : Bool :=
  !containsSub (s2l "mt") name && !containsSub (s2l "ot") name &&
  !containsSub (s2l "gen") name && !(s2l "host").isPrefixOf name &&
  !(s2l "target").isPrefixOf name && containsChar ':' name &&
  (!filter_active ||
    match parse_colon_list name invalidate_hctl with
    | none => false
    | some s =>
      decide ((filter.h = -1 ∨ s.h = filter.h) ∧ (filter.c = -1 ∨ s.c = filter.c) ∧
        (filter.t = -1 ∨ s.t = filter.t) ∧ (filter.l = UINT64_LAST ∨ s.l = filter.l)))

/-! Probe conditions of `transport_init`, named for the statements about
probe order (each is the exact condition the corresponding branch tests). -/

/-- SPI probe: `<root>/class/spi_host/<name>` is a directory. -/
def spiMatch (fs : Sysfs) (dev : List Char) : Bool :=
  fs.isDir (s2l "/sys/class/spi_host/" ++ dev)

/-- FC probe: `<root>/class/fc_host/<name>` is a directory. -/
def fcMatch (fs : Sysfs) (dev : List Char) : Bool :=
  fs.isDir (s2l "/sys/class/fc_host/" ++ dev)

/-- SRP probe: `<root>/class/srp_host/<name>` is a directory. -/
def srpMatch (fs : Sysfs) (dev : List Char) : Bool :=
  fs.isDir (s2l "/sys/class/srp_host/" ++ dev)

/-- SAS (transport class) probe: `<root>/class/sas_host/<name>` is a
directory or symlink. -/
def sasMatch (fs : Sysfs) (dev : List Char) : Bool :=
  fs.isDirOrLink (s2l "/sys/class/sas_host/" ++ dev)

/-- SAS (legacy class) probe: `scsi_host/<name>/device/sas/ha` is a
directory. -/
def sasClassMatch (fs : Sysfs) (dev : List Char) : Bool :=
  fs.isDir (s2l "/sys/class/scsi_host/" ++ dev ++ s2l "/device/sas/ha")

/-- iSCSI probe: `<root>/class/iscsi_host/<name>` is a directory. -/
def iscsiMatch (fs : Sysfs) (dev : List Char) : Bool :=
  fs.isDir (s2l "/sys/class/iscsi_host/" ++ dev)

/-- USB probe: `get_usb_devname` finds a USB bus/port name. -/
def usbMatch (fs : Sysfs) (dev : List Char) : Bool :=
  (fs.usbDevname dev).isSome

/-- ATA/SATA probe: the `proc_name` attribute reads `ahci` or contains
`ata`. -/
def ataMatch (fs : Sysfs) (dev : List Char) : Bool :=
  match fs.attr (s2l "/sys/class/scsi_host/" ++ dev) (s2l "proc_name") with
  | some wd => wd = s2l "ahci" || containsSub (s2l "ata") wd
  | none => false

/-- An empty sysfs tree (no probe can match): used as a concrete witness
input. -/
def fsEmpty : Sysfs :=
  ⟨fun _ => false, fun _ => false, fun _ _ => none, fun _ => none,
   fun _ => none, fun _ => [], fun _ => none⟩

/-- A sysfs tree holding only `class/spi_host/host0`. -/
def fsSpi : Sysfs :=
  { fsEmpty with isDir := fun p => p = s2l "/sys/class/spi_host/host0" }

/-- The `fc_host` class directory of a host (step 2 of the classifier). -/
def fcDir (dev : List Char) : List Char := s2l "/sys/class/fc_host/" ++ dev

/-- Does the host's `symbolic_name` attribute exist and contain the
substring `" over "` (the FCoE test of the classifier)? -/
def fcHasOver (fs : Sysfs) (dev : List Char) : Bool :=
  match fs.attr (fcDir dev) (s2l "symbolic_name") with
  | some wd => containsSub (s2l " over ") wd
  | none => false

/-- A sysfs tree with an FCoE host `host2`: an `fc_host` class directory
whose `symbolic_name` contains `" over "`, with `port_name` and
`port_id` both present. -/
def fsFcoe : Sysfs :=
  { fsEmpty with
    isDir := fun p => p = s2l "/sys/class/fc_host/host2",
    attr := fun dir base =>
      if dir = s2l "/sys/class/fc_host/host2" then
        if base = s2l "symbolic_name" then some (s2l "fcoe over eth0")
        else if base = s2l "port_name" then some (s2l "0xpn")
        else if base = s2l "port_id" then some (s2l "0xid")
        else none
      else none }

/-- A sysfs tree with an FC host `host7` whose `port_name` attribute is
missing. -/
def fsFcPartial : Sysfs :=
  { fsEmpty with
    isDir := fun p => p = s2l "/sys/class/fc_host/host7",
    attr := fun _ _ => none }

/-- Four colon-separated fields as one string (`f1:f2:f3:f4`). -/
def hctlStr (f1 f2 f3 f4 : List Char) : List Char :=
  f1 ++ (':' :: (f2 ++ (':' :: (f3 ++ (':' :: f4)))))

/-- Three colon-separated fields as one string (`f1:f2:f3`). -/
def hctStr (f1 f2 f3 : List Char) : List Char :=
  f1 ++ (':' :: (f2 ++ (':' :: f3)))

/-- A one-file filesystem: `/sys/dev/model` containing
`Direct-Access` followed by a newline. -/
def filesDA : List Char → Option (List Char) :=
  fun p => if p = s2l "/sys/dev/model" then some (s2l "Direct-Access\n")
           else none

/-- A one-file filesystem whose only file, `/sys/dev/state`, is empty. -/
def filesEmptyFile : List Char → Option (List Char) :=
  fun p => if p = s2l "/sys/dev/state" then some [] else none

theorem dropWhile_length_le (p : Char → Bool) (l : List Char) :
    (l.dropWhile p).length ≤ l.length := by
  induction l with
  | nil => simp [List.dropWhile]
  | cons a as ih =>
    simp only [List.dropWhile]
    split
    · exact Nat.le_trans ih (Nat.le_succ _)
    · exact Nat.le_refl _

theorem scanNatRaw_length {l : List Char} {v : Nat} {rest : List Char}
    (h : scanNatRaw l = some (v, rest)) : rest.length ≤ l.length := by
  unfold scanNatRaw at h
  split at h
  · exact absurd h (by simp)
  · simp only [Option.some.injEq, Prod.mk.injEq] at h
    rcases h with ⟨_, h2⟩
    subst h2
    exact dropWhile_length_le isDigitC l

theorem scanInt_length {l : List Char} {v : Int} {rest : List Char}
    (h : scanInt l = some (v, rest)) : rest.length ≤ l.length := by
  unfold scanInt at h
  split at h
  · exact absurd h (by simp)
  · rename_i c r heq
    have hdw : (c :: r).length ≤ l.length := by
      rw [← heq]; exact dropWhile_length_le isSpaceC l
    split at h
    · rcases Option.map_eq_some'.mp h with ⟨⟨v1, r1⟩, hs, he⟩
      cases he
      have := scanNatRaw_length hs
      simp at hdw ⊢
      omega
    · split at h
      · rcases Option.map_eq_some'.mp h with ⟨⟨v1, r1⟩, hs, he⟩
        cases he
        have := scanNatRaw_length hs
        simp at hdw ⊢
        omega
      · rcases Option.map_eq_some'.mp h with ⟨⟨v1, r1⟩, hs, he⟩
        cases he
        have := scanNatRaw_length hs
        simp at hdw this ⊢
        omega

theorem natReprAux_congr :
    ∀ (f1 f2 n : Nat), n < f1 → n < f2 →
      natReprAux f1 n = natReprAux f2 n := by
  intro f1
  induction f1 with
  | zero => intro f2 n h1 _; exact absurd h1 (Nat.not_lt_zero n)
  | succ f ih =>
    intro f2 n h1 h2
    cases f2 with
    | zero => exact absurd h2 (Nat.not_lt_zero n)
    | succ g =>
      show (if n < 10 then [digitChar n]
            else natReprAux f (n / 10) ++ [digitChar (n % 10)]) =
           (if n < 10 then [digitChar n]
            else natReprAux g (n / 10) ++ [digitChar (n % 10)])
      split
      · rfl
      · next h =>
        have hd : n / 10 < n := Nat.div_lt_self (by omega) (by omega)
        rw [ih g (n / 10) (by omega) (by omega)]

theorem natRepr_eq (n : Nat) :
    natRepr n = if n < 10 then [digitChar n]
                else natRepr (n / 10) ++ [digitChar (n % 10)] := by
  show (if n < 10 then [digitChar n]
        else natReprAux n (n / 10) ++ [digitChar (n % 10)]) = _
  split
  · rfl
  · next h =>
    have hd : n / 10 < n := Nat.div_lt_self (by omega) (by omega)
    unfold natRepr
    rw [natReprAux_congr n (n / 10 + 1) (n / 10) (by omega) (by omega)]

theorem cmp_hctl_eq_spec (a b : addr_hctl) :
    cmp_hctl a b = ordToInt (specCompare a b) := by
  unfold cmp_hctl specCompare cmpOrd cmpOrdN
  split_ifs <;> simp_all [Ordering.then, ordToInt] <;> omega

theorem cmp_hctl_m1_iff (a b : addr_hctl) :
    cmp_hctl a b = -1 ↔
      (a.h < b.h ∨ (a.h = b.h ∧ (a.c < b.c ∨ (a.c = b.c ∧
        (a.t < b.t ∨ (a.t = b.t ∧ a.l < b.l)))))) := by
  unfold cmp_hctl
  split_ifs <;> simp_all <;> omega

theorem cmp_hctl_zero_iff (a b : addr_hctl) :
    cmp_hctl a b = 0 ↔ (a.h = b.h ∧ a.c = b.c ∧ a.t = b.t ∧ a.l = b.l) := by
  unfold cmp_hctl
  split_ifs <;> simp_all <;> omega

theorem cmp_hctl_one_iff (a b : addr_hctl) :
    cmp_hctl a b = 1 ↔
      (b.h < a.h ∨ (a.h = b.h ∧ (b.c < a.c ∨ (a.c = b.c ∧
        (b.t < a.t ∨ (a.t = b.t ∧ b.l < a.l)))))) := by
  unfold cmp_hctl
  split_ifs <;> simp_all <;> omega

theorem cmp_hctl_cases (a b : addr_hctl) :
    cmp_hctl a b = -1 ∨ cmp_hctl a b = 0 ∨ cmp_hctl a b = 1 := by
  unfold cmp_hctl
  split_ifs <;> simp

/-- C1.  `cmp_hctl` is exactly the lexicographic comparison over
`(host, channel, target, lun)` returning -1/0/1, hence a strict total
order: reflexively 0, exactly one of less/equal/greater for every pair
(the three outcomes exhaust the range and exclude each other), and
transitive; and sorting the entry names `3:0:0:0`, `1:2:0:0`, `1:0:5:0`
with the directory-sort comparator `sdev_scandir_sort` yields
`1:0:5:0`, `1:2:0:0`, `3:0:0:0`. -/
theorem cmp_hctl_strict_total_order :
    (∀ a b : addr_hctl, cmp_hctl a b = ordToInt (specCompare a b)) ∧
    (∀ a : addr_hctl, cmp_hctl a a = 0) ∧
    (∀ a b : addr_hctl,
      cmp_hctl a b = -1 ∨ cmp_hctl a b = 0 ∨ cmp_hctl a b = 1) ∧
    (∀ a b : addr_hctl,
      cmp_hctl a b = 0 ↔ (a.h = b.h ∧ a.c = b.c ∧ a.t = b.t ∧ a.l = b.l)) ∧
    (∀ a b : addr_hctl, cmp_hctl b a = -cmp_hctl a b) ∧
    (∀ a b c : addr_hctl,
      cmp_hctl a b = -1 → cmp_hctl b c = -1 → cmp_hctl a c = -1) ∧
    cmpSort sdev_scandir_sort [s2l "3:0:0:0", s2l "1:2:0:0", s2l "1:0:5:0"] =
      [s2l "1:0:5:0", s2l "1:2:0:0", s2l "3:0:0:0"] := by
  refine ⟨cmp_hctl_eq_spec, ?_, cmp_hctl_cases, cmp_hctl_zero_iff, ?_, ?_, by decide⟩
  · intro a
    simp [cmp_hctl_zero_iff]
  · intro a b
    rcases cmp_hctl_cases a b with h | h | h
    · have h1 := (cmp_hctl_m1_iff a b).mp h
      have h2 : cmp_hctl b a = 1 := (cmp_hctl_one_iff b a).mpr (by omega)
      omega
    · have h1 := (cmp_hctl_zero_iff a b).mp h
      have h2 : cmp_hctl b a = 0 := (cmp_hctl_zero_iff b a).mpr (by omega)
      omega
    · have h1 := (cmp_hctl_one_iff a b).mp h
      have h2 : cmp_hctl b a = -1 := (cmp_hctl_m1_iff b a).mpr (by omega)
      omega
  · intro a b c h1 h2
    rw [cmp_hctl_m1_iff] at h1 h2 ⊢
    omega

/-- Witness for C1: the transitivity component applied at the three
concrete tuples of the sorting example. -/
theorem cmp_hctl_strict_total_order_witness :
    cmp_hctl ⟨1, 0, 5, 0, []⟩ ⟨3, 0, 0, 0, []⟩ = -1 :=
  cmp_hctl_strict_total_order.2.2.2.2.2.1
    ⟨1, 0, 5, 0, []⟩ ⟨1, 2, 0, 0, []⟩ ⟨3, 0, 0, 0, []⟩ (by decide) (by decide)

/-! ### Digit-string and scanner lemmas. -/

theorem digitVal_digitChar {d : Nat} (h : d < 10) :
    digitVal (digitChar d) = d := by
  interval_cases d <;> rfl

theorem isDigitC_digitChar {d : Nat} (h : d < 10) :
    isDigitC (digitChar d) = true := by
  interval_cases d <;> rfl

theorem natRepr_ne_nil (n : Nat) : natRepr n ≠ [] := by
  rw [natRepr_eq]
  split <;> simp

theorem natRepr_digits (n : Nat) : ∀ c ∈ natRepr n, isDigitC c = true := by
  induction n using Nat.strong_induction_on with
  | _ n ih =>
    rw [natRepr_eq]
    split
    · next h =>
      intro c hc
      simp at hc
      subst hc
      exact isDigitC_digitChar h
    · next h =>
      intro c hc
      simp at hc
      rcases hc with hc | hc
      · exact ih (n / 10) (Nat.div_lt_self (by omega) (by omega)) c hc
      · subst hc
        exact isDigitC_digitChar (Nat.mod_lt _ (by omega))

theorem digitsVal_append_digit (ds : List Char) (c : Char) :
    digitsVal (ds ++ [c]) = 10 * digitsVal ds + digitVal c := by
  simp [digitsVal, List.foldl_append]

theorem digitsVal_natRepr (n : Nat) : digitsVal (natRepr n) = n := by
  induction n using Nat.strong_induction_on with
  | _ n ih =>
    rw [natRepr_eq]
    split
    · next h =>
      simp [digitsVal, digitVal_digitChar h]
    · next h =>
      rw [digitsVal_append_digit, ih (n / 10) (Nat.div_lt_self (by omega) (by omega)),
        digitVal_digitChar (Nat.mod_lt _ (by omega))]
      omega

theorem takeWhile_app_of_all {p : Char → Bool} {xs : List Char}
    (ys : List Char) (h : ∀ x ∈ xs, p x = true) :
    (xs ++ ys).takeWhile p = xs ++ ys.takeWhile p := by
  induction xs with
  | nil => simp
  | cons a as ih =>
    have ha : p a = true := h a (by simp)
    simp only [List.cons_append, List.takeWhile_cons, ha, if_true]
    rw [ih (fun x hx => h x (by simp [hx]))]

theorem dropWhile_app_of_all {p : Char → Bool} {xs : List Char}
    (ys : List Char) (h : ∀ x ∈ xs, p x = true) :
    (xs ++ ys).dropWhile p = ys.dropWhile p := by
  induction xs with
  | nil => simp
  | cons a as ih =>
    have ha : p a = true := h a (by simp)
    simp only [List.cons_append, List.dropWhile_cons, ha, if_true]
    exact ih (fun x hx => h x (by simp [hx]))

theorem dropWhile_of_takeWhile_nil {p : Char → Bool} {l : List Char}
    (h : l.takeWhile p = []) : l.dropWhile p = l := by
  cases l with
  | nil => rfl
  | cons a as =>
    simp only [List.takeWhile_cons] at h
    simp only [List.dropWhile_cons]
    split at h
    · simp at h
    · next hpa => simp [hpa]

theorem scanNatRaw_app (ds rest : List Char) (hne : ds ≠ [])
    (hall : ∀ c ∈ ds, isDigitC c = true)
    (hrest : rest.takeWhile isDigitC = []) :
    scanNatRaw (ds ++ rest) = some (digitsVal ds, rest) := by
  unfold scanNatRaw
  rw [takeWhile_app_of_all rest hall, hrest, dropWhile_app_of_all rest hall,
    dropWhile_of_takeWhile_nil hrest]
  cases ds with
  | nil => exact absurd rfl hne
  | cons d ds' => simp

theorem digit_not_space {c : Char} (h : isDigitC c = true) :
    isSpaceC c = false := by
  simp only [isDigitC, Bool.and_eq_true, decide_eq_true_eq] at h
  simp only [isSpaceC, Bool.or_eq_false_iff, decide_eq_false_iff_not]
  omega

theorem digit_ne_char {c c2 : Char} (h : isDigitC c = true)
    (h2 : isDigitC c2 = false) : c ≠ c2 := by
  intro he
  subst he
  rw [h] at h2
  exact absurd h2 (by simp)

theorem scanInt_app (ds rest : List Char) (hne : ds ≠ [])
    (hall : ∀ c ∈ ds, isDigitC c = true)
    (hrest : rest.takeWhile isDigitC = []) :
    scanInt (ds ++ rest) = some ((digitsVal ds : Int), rest) := by
  cases ds with
  | nil => exact absurd rfl hne
  | cons d ds' =>
    have hd : isDigitC d = true := hall d (by simp)
    unfold scanInt
    rw [List.cons_append, List.dropWhile_cons]
    rw [digit_not_space hd]
    simp only [Bool.false_eq_true, if_false]
    rw [if_neg (digit_ne_char hd (by decide)), if_neg (digit_ne_char hd (by decide))]
    rw [← List.cons_append, scanNatRaw_app _ rest hne hall hrest]
    rfl

theorem scanU64_app (ds rest : List Char) (hne : ds ≠ [])
    (hall : ∀ c ∈ ds, isDigitC c = true)
    (hrest : rest.takeWhile isDigitC = []) :
    scanU64 (ds ++ rest) = some (digitsVal ds % 2 ^ 64, rest) := by
  cases ds with
  | nil => exact absurd rfl hne
  | cons d ds' =>
    have hd : isDigitC d = true := hall d (by simp)
    unfold scanU64
    rw [List.cons_append, List.dropWhile_cons]
    rw [digit_not_space hd]
    simp only [Bool.false_eq_true, if_false]
    rw [if_neg (digit_ne_char hd (by decide)), if_neg (digit_ne_char hd (by decide))]
    rw [← List.cons_append, scanNatRaw_app _ rest hne hall hrest]
    rfl

theorem afterChar_app (ch : Char) (xs rest : List Char)
    (h : ∀ x ∈ xs, x ≠ ch) :
    afterChar ch (xs ++ ch :: rest) = some rest := by
  induction xs with
  | nil => simp [afterChar]
  | cons a as ih =>
    have ha : a ≠ ch := h a (by simp)
    simp only [List.cons_append, afterChar, ha, if_neg, if_false]
    exact ih (fun x hx => h x (by simp [hx]))

theorem afterChar_none {ch : Char} {xs : List Char} (h : ∀ x ∈ xs, x ≠ ch) :
    afterChar ch xs = none := by
  induction xs with
  | nil => rfl
  | cons a as ih =>
    have ha : a ≠ ch := h a (by simp)
    simp only [afterChar]
    rw [if_neg ha]
    exact ih (fun x hx => h x (by simp [hx]))

theorem digit_toUpperC {c : Char} (h : isDigitC c = true) : toUpperC c = c := by
  simp only [isDigitC, Bool.and_eq_true, decide_eq_true_eq] at h
  unfold toUpperC
  rw [if_neg (by omega)]

theorem digit_toUpper_ne_N {c : Char} (h : isDigitC c = true) :
    toUpperC c ≠ 'N' := by
  rw [digit_toUpperC h]
  intro he
  have h3 : c.toNat = 78 := by rw [he]; decide
  simp only [isDigitC, Bool.and_eq_true, decide_eq_true_eq] at h
  omega

theorem takeWhile_colon_cons (rest : List Char) :
    (':' :: rest).takeWhile isDigitC = [] := by
  rw [List.takeWhile_cons]
  simp [show isDigitC ':' = false from by decide]

theorem parseScsi_fourFields_gen {ds1 ds2 ds3 ds4 : List Char}
    {lv : Nat} {rem : List Char} (prior : addr_hctl)
    (h1 : ds1 ≠ []) (a1 : ∀ c ∈ ds1, isDigitC c = true)
    (h2 : ds2 ≠ []) (a2 : ∀ c ∈ ds2, isDigitC c = true)
    (h3 : ds3 ≠ []) (a3 : ∀ c ∈ ds3, isDigitC c = true)
    (hu : scanU64 ds4 = some (lv, rem)) :
    parseScsi (hctlStr ds1 ds2 ds3 ds4) prior =
      some { prior with h := (digitsVal ds1 : Int), c := (digitsVal ds2 : Int),
                        t := (digitsVal ds3 : Int), l := lv,
                        lun_arr := lunArrOf lv } := by
  have hc : isDigitC ':' = false := by decide
  have n1 : ∀ x ∈ ds1, x ≠ ':' := fun x hx => digit_ne_char (a1 x hx) hc
  have n2 : ∀ x ∈ ds2, x ≠ ':' := fun x hx => digit_ne_char (a2 x hx) hc
  have n3 : ∀ x ∈ ds3, x ≠ ':' := fun x hx => digit_ne_char (a3 x hx) hc
  have e1 := scanInt_app ds1
    (':' :: (ds2 ++ (':' :: (ds3 ++ (':' :: ds4))))) h1 a1 (takeWhile_colon_cons _)
  have f1 := afterChar_app ':' ds1
    (ds2 ++ (':' :: (ds3 ++ (':' :: ds4)))) n1
  have e2 := scanInt_app ds2
    (':' :: (ds3 ++ (':' :: ds4))) h2 a2 (takeWhile_colon_cons _)
  have f2 := afterChar_app ':' ds2 (ds3 ++ (':' :: ds4)) n2
  have e3 := scanInt_app ds3 (':' :: ds4) h3 a3 (takeWhile_colon_cons _)
  have f3 := afterChar_app ':' ds3 ds4 n3
  unfold hctlStr parseScsi
  simp only [e1, f1, e2, f2, e3, f3, hu]

theorem parse_colon_list_fourFields_gen {ds1 ds2 ds3 ds4 : List Char}
    {lv : Nat} {rem : List Char} (prior : addr_hctl)
    (h1 : ds1 ≠ []) (a1 : ∀ c ∈ ds1, isDigitC c = true)
    (h2 : ds2 ≠ []) (a2 : ∀ c ∈ ds2, isDigitC c = true)
    (h3 : ds3 ≠ []) (a3 : ∀ c ∈ ds3, isDigitC c = true)
    (hu : scanU64 ds4 = some (lv, rem)) :
    parse_colon_list (hctlStr ds1 ds2 ds3 ds4) prior =
      some { prior with h := (digitsVal ds1 : Int), c := (digitsVal ds2 : Int),
                        t := (digitsVal ds3 : Int), l := lv,
                        lun_arr := lunArrOf lv } := by
  cases ds1 with
  | nil => exact absurd rfl h1
  | cons d ds' =>
    have hd : isDigitC d = true := a1 d (by simp)
    have hshape : hctlStr (d :: ds') ds2 ds3 ds4 =
        d :: (ds' ++ (':' :: (ds2 ++ (':' :: (ds3 ++ (':' :: ds4)))))) := rfl
    rw [hshape]
    show (if toUpperC d = 'N'
        then parseNvme
          (d :: (ds' ++ (':' :: (ds2 ++ (':' :: (ds3 ++ (':' :: ds4))))))) prior
        else parseScsi
          (d :: (ds' ++ (':' :: (ds2 ++ (':' :: (ds3 ++ (':' :: ds4))))))) prior)
      = _
    rw [if_neg (digit_toUpper_ne_N hd), ← hshape]
    exact parseScsi_fourFields_gen prior (by simp) a1 h2 a2 h3 a3 hu

theorem scanU64_all_digits {ds : List Char} (hne : ds ≠ [])
    (hall : ∀ c ∈ ds, isDigitC c = true) :
    scanU64 ds = some (digitsVal ds % 2 ^ 64, []) := by
  have h := scanU64_app ds [] hne hall rfl
  rwa [List.append_nil] at h

theorem parse_colon_list_threeFields {ds1 ds2 ds3 : List Char}
    (prior : addr_hctl)
    (h1 : ds1 ≠ []) (a1 : ∀ c ∈ ds1, isDigitC c = true)
    (h2 : ds2 ≠ []) (a2 : ∀ c ∈ ds2, isDigitC c = true)
    (h3 : ds3 ≠ []) (a3 : ∀ c ∈ ds3, isDigitC c = true) :
    parse_colon_list (hctStr ds1 ds2 ds3) prior = none := by
  have hc : isDigitC ':' = false := by decide
  have n1 : ∀ x ∈ ds1, x ≠ ':' := fun x hx => digit_ne_char (a1 x hx) hc
  have n2 : ∀ x ∈ ds2, x ≠ ':' := fun x hx => digit_ne_char (a2 x hx) hc
  have n3 : ∀ x ∈ ds3, x ≠ ':' := fun x hx => digit_ne_char (a3 x hx) hc
  have e1 := scanInt_app ds1 (':' :: (ds2 ++ (':' :: ds3)))
    h1 a1 (takeWhile_colon_cons _)
  have f1 := afterChar_app ':' ds1 (ds2 ++ (':' :: ds3)) n1
  have e2 := scanInt_app ds2 (':' :: ds3) h2 a2 (takeWhile_colon_cons _)
  have f2 := afterChar_app ':' ds2 ds3 n2
  have e3 : scanInt ds3 = some ((digitsVal ds3 : Int), []) := by
    have h := scanInt_app ds3 [] h3 a3 rfl
    rwa [List.append_nil] at h
  have f3 : afterChar ':' ds3 = none := afterChar_none n3
  cases ds1 with
  | nil => exact absurd rfl h1
  | cons d ds' =>
    have hd : isDigitC d = true := a1 d (by simp)
    have hshape : hctStr (d :: ds') ds2 ds3 =
        d :: (ds' ++ (':' :: (ds2 ++ (':' :: ds3)))) := rfl
    rw [hshape]
    show (if toUpperC d = 'N'
        then parseNvme (d :: (ds' ++ (':' :: (ds2 ++ (':' :: ds3))))) prior
        else parseScsi (d :: (ds' ++ (':' :: (ds2 ++ (':' :: ds3))))) prior)
      = _
    rw [if_neg (digit_toUpper_ne_N hd)]
    unfold parseScsi
    rw [show d :: (ds' ++ (':' :: (ds2 ++ (':' :: ds3)))) =
      (d :: ds') ++ (':' :: (ds2 ++ (':' :: ds3))) from rfl]
    simp only [e1, f1, e2, f2, e3, f3]

theorem natRepr_all_facts (n : Nat) :
    natRepr n ≠ [] ∧ (∀ c ∈ natRepr n, isDigitC c = true) ∧
      digitsVal (natRepr n) = n :=
  ⟨natRepr_ne_nil n, natRepr_digits n, digitsVal_natRepr n⟩

theorem scanInt_none_head (c : Char) (r : List Char)
    (h1 : isDigitC c = false) (h2 : isSpaceC c = false)
    (h3 : c ≠ '-') (h4 : c ≠ '+') : scanInt (c :: r) = none := by
  unfold scanInt
  rw [List.dropWhile_cons, h2]
  simp only [Bool.false_eq_true, if_false]
  rw [if_neg h3, if_neg h4]
  unfold scanNatRaw
  rw [List.takeWhile_cons, h1]
  simp

theorem scanU64_none_head (c : Char) (r : List Char)
    (h1 : isDigitC c = false) (h2 : isSpaceC c = false)
    (h3 : c ≠ '-') (h4 : c ≠ '+') : scanU64 (c :: r) = none := by
  unfold scanU64
  rw [List.dropWhile_cons, h2]
  simp only [Bool.false_eq_true, if_false]
  rw [if_neg h3, if_neg h4]
  unfold scanNatRaw
  rw [List.takeWhile_cons, h1]
  simp

theorem parse_colon_list_digit_head (prior : addr_hctl) (d : Char)
    (rest : List Char) (hd : isDigitC d = true) :
    parse_colon_list (d :: rest) prior = parseScsi (d :: rest) prior := by
  show (if toUpperC d = 'N' then parseNvme (d :: rest) prior
        else parseScsi (d :: rest) prior) = _
  rw [if_neg (digit_toUpper_ne_N hd)]

/-- C3 (amended).  For every non-NVMe input: `parse_colon_list` succeeds
on any string of four colon-separated decimal digit fields (values in
the C ranges) followed by arbitrary text that does not start with a
digit — trailing text after the fourth field, further colon-separated
fields included, is accepted and ignored — yielding the four field
values and `lun_arr` as the four big-endian 16-bit words of `lun` in
SAM-5 order; it fails when only three colon-separated fields are
present, and whenever the `sscanf` integer scan at any of the four
field positions fails (the field is missing or non-numeric there). -/
theorem parse_colon_list_fourFields :
    (∀ (prior : addr_hctl) (ds1 ds2 ds3 ds4 tail : List Char),
      ds1 ≠ [] → (∀ ch ∈ ds1, isDigitC ch = true) →
      ds2 ≠ [] → (∀ ch ∈ ds2, isDigitC ch = true) →
      ds3 ≠ [] → (∀ ch ∈ ds3, isDigitC ch = true) →
      ds4 ≠ [] → (∀ ch ∈ ds4, isDigitC ch = true) →
      tail.takeWhile isDigitC = [] →
      digitsVal ds1 < 2 ^ 31 → digitsVal ds2 < 2 ^ 31 →
      digitsVal ds3 < 2 ^ 31 → digitsVal ds4 < 2 ^ 64 →
      parse_colon_list (hctlStr ds1 ds2 ds3 (ds4 ++ tail)) prior =
        some ⟨(digitsVal ds1 : Int), (digitsVal ds2 : Int),
              (digitsVal ds3 : Int), digitsVal ds4,
              lunArrOf (digitsVal ds4)⟩) ∧
    (∀ (prior : addr_hctl) (ds1 ds2 ds3 : List Char),
      ds1 ≠ [] → (∀ ch ∈ ds1, isDigitC ch = true) →
      ds2 ≠ [] → (∀ ch ∈ ds2, isDigitC ch = true) →
      ds3 ≠ [] → (∀ ch ∈ ds3, isDigitC ch = true) →
      parse_colon_list (hctStr ds1 ds2 ds3) prior = none) ∧
    (∀ (prior : addr_hctl) (c : Char) (r : List Char),
      toUpperC c ≠ 'N' → scanInt (c :: r) = none →
      parse_colon_list (c :: r) prior = none) ∧
    (∀ (prior : addr_hctl) (ds1 rest : List Char),
      ds1 ≠ [] → (∀ ch ∈ ds1, isDigitC ch = true) →
      scanInt rest = none →
      parse_colon_list (ds1 ++ (':' :: rest)) prior = none) ∧
    (∀ (prior : addr_hctl) (ds1 ds2 rest : List Char),
      ds1 ≠ [] → (∀ ch ∈ ds1, isDigitC ch = true) →
      ds2 ≠ [] → (∀ ch ∈ ds2, isDigitC ch = true) →
      scanInt rest = none →
      parse_colon_list (hctStr ds1 ds2 rest) prior = none) ∧
    (∀ (prior : addr_hctl) (ds1 ds2 ds3 rest : List Char),
      ds1 ≠ [] → (∀ ch ∈ ds1, isDigitC ch = true) →
      ds2 ≠ [] → (∀ ch ∈ ds2, isDigitC ch = true) →
      ds3 ≠ [] → (∀ ch ∈ ds3, isDigitC ch = true) →
      scanU64 rest = none →
      parse_colon_list (hctlStr ds1 ds2 ds3 rest) prior = none) ∧
    (∀ l : Nat, lunArrOf l = lunBytesSpec l) := by
  have hcol : isDigitC ':' = false := by decide
  refine ⟨?_, ?_, ?_, ?_, ?_, ?_, ?_⟩
  · intro prior ds1 ds2 ds3 ds4 tail h1 a1 h2 a2 h3 a3 h4 a4 htail b1 b2 b3 b4
    have hu : scanU64 (ds4 ++ tail) = some (digitsVal ds4, tail) := by
      have h := scanU64_app ds4 tail h4 a4 htail
      rwa [Nat.mod_eq_of_lt b4] at h
    exact parse_colon_list_fourFields_gen prior h1 a1 h2 a2 h3 a3 hu
  · intro prior ds1 ds2 ds3 h1 a1 h2 a2 h3 a3
    exact parse_colon_list_threeFields prior h1 a1 h2 a2 h3 a3
  · intro prior c r hN hscan
    show (if toUpperC c = 'N' then parseNvme (c :: r) prior
          else parseScsi (c :: r) prior) = none
    rw [if_neg hN]
    unfold parseScsi
    rw [hscan]
  · intro prior ds1 rest h1 a1 hscan
    have n1 : ∀ x ∈ ds1, x ≠ ':' := fun x hx => digit_ne_char (a1 x hx) hcol
    have e1 := scanInt_app ds1 (':' :: rest) h1 a1 (takeWhile_colon_cons _)
    have f1 := afterChar_app ':' ds1 rest n1
    cases ds1 with
    | nil => exact absurd rfl h1
    | cons d ds' =>
      have hd : isDigitC d = true := a1 d (by simp)
      rw [show (d :: ds') ++ (':' :: rest) = d :: (ds' ++ (':' :: rest))
        from rfl]
      rw [parse_colon_list_digit_head prior d _ hd]
      rw [show d :: (ds' ++ (':' :: rest)) = (d :: ds') ++ (':' :: rest)
        from rfl]
      unfold parseScsi
      simp only [e1, f1, hscan]
  · intro prior ds1 ds2 rest h1 a1 h2 a2 hscan
    have n1 : ∀ x ∈ ds1, x ≠ ':' := fun x hx => digit_ne_char (a1 x hx) hcol
    have n2 : ∀ x ∈ ds2, x ≠ ':' := fun x hx => digit_ne_char (a2 x hx) hcol
    have e1 := scanInt_app ds1 (':' :: (ds2 ++ (':' :: rest)))
      h1 a1 (takeWhile_colon_cons _)
    have f1 := afterChar_app ':' ds1 (ds2 ++ (':' :: rest)) n1
    have e2 := scanInt_app ds2 (':' :: rest) h2 a2 (takeWhile_colon_cons _)
    have f2 := afterChar_app ':' ds2 rest n2
    cases ds1 with
    | nil => exact absurd rfl h1
    | cons d ds' =>
      have hd : isDigitC d = true := a1 d (by simp)
      have hshape : hctStr (d :: ds') ds2 rest =
          d :: (ds' ++ (':' :: (ds2 ++ (':' :: rest)))) := rfl
      rw [hshape]
      rw [parse_colon_list_digit_head prior d _ hd]
      rw [show d :: (ds' ++ (':' :: (ds2 ++ (':' :: rest)))) =
        (d :: ds') ++ (':' :: (ds2 ++ (':' :: rest))) from rfl]
      unfold parseScsi
      simp only [e1, f1, e2, f2, hscan]
  · intro prior ds1 ds2 ds3 rest h1 a1 h2 a2 h3 a3 hscan
    have n1 : ∀ x ∈ ds1, x ≠ ':' := fun x hx => digit_ne_char (a1 x hx) hcol
    have n2 : ∀ x ∈ ds2, x ≠ ':' := fun x hx => digit_ne_char (a2 x hx) hcol
    have n3 : ∀ x ∈ ds3, x ≠ ':' := fun x hx => digit_ne_char (a3 x hx) hcol
    have e1 := scanInt_app ds1 (':' :: (ds2 ++ (':' :: (ds3 ++ (':' :: rest)))))
      h1 a1 (takeWhile_colon_cons _)
    have f1 := afterChar_app ':' ds1 (ds2 ++ (':' :: (ds3 ++ (':' :: rest)))) n1
    have e2 := scanInt_app ds2 (':' :: (ds3 ++ (':' :: rest)))
      h2 a2 (takeWhile_colon_cons _)
    have f2 := afterChar_app ':' ds2 (ds3 ++ (':' :: rest)) n2
    have e3 := scanInt_app ds3 (':' :: rest) h3 a3 (takeWhile_colon_cons _)
    have f3 := afterChar_app ':' ds3 rest n3
    cases ds1 with
    | nil => exact absurd rfl h1
    | cons d ds' =>
      have hd : isDigitC d = true := a1 d (by simp)
      have hshape : hctlStr (d :: ds') ds2 ds3 rest =
          d :: (ds' ++ (':' :: (ds2 ++ (':' :: (ds3 ++ (':' :: rest)))))) := rfl
      rw [hshape]
      rw [parse_colon_list_digit_head prior d _ hd]
      rw [show d :: (ds' ++ (':' :: (ds2 ++ (':' :: (ds3 ++ (':' :: rest)))))) =
        (d :: ds') ++ (':' :: (ds2 ++ (':' :: (ds3 ++ (':' :: rest)))))
        from rfl]
      unfold parseScsi
      simp only [e1, f1, e2, f2, e3, f3, hscan]
  · intro l
    simp only [lunArrOf, lunBytesSpec, List.range_succ, List.flatMap_cons,
      List.flatMap_nil, List.range_zero, Nat.shiftRight_eq_div_pow]
    norm_num
    omega

/-- Witness for C3: the trailing-text success arm at `1:2:3:4` followed
by `:5`, and the non-numeric-second-field failure arm at `1:x:3`. -/
theorem parse_colon_list_fourFields_witness :
    parse_colon_list
        (hctlStr (s2l "1") (s2l "2") (s2l "3") (s2l "4" ++ s2l ":5"))
        invalidate_hctl = some ⟨1, 2, 3, 4, lunArrOf 4⟩ ∧
    parse_colon_list (s2l "1" ++ (':' :: s2l "x:3")) invalidate_hctl =
      none :=
  ⟨parse_colon_list_fourFields.1 invalidate_hctl (s2l "1") (s2l "2")
      (s2l "3") (s2l "4") (s2l ":5") (by decide) (by decide) (by decide)
      (by decide) (by decide) (by decide) (by decide) (by decide) (by decide)
      (by decide) (by decide) (by decide) (by decide),
   parse_colon_list_fourFields.2.2.2.1 invalidate_hctl (s2l "1") (s2l "x:3")
      (by decide) (by decide) (by decide)⟩

/-- Counterexample for C3 as stated: `"1:2:3:4:5"` is not four
colon-separated integer fields, yet `parse_colon_list` accepts it
(parsing the first four fields and ignoring the rest), refuting the
"succeeds only if exactly four fields" direction. -/
theorem parse_colon_list_extra_field_counterexample :
    fourColonIntFields (s2l "1:2:3:4:5") = false ∧
    parse_colon_list (s2l "1:2:3:4:5") invalidate_hctl =
      some { invalidate_hctl with h := 1, c := 2, t := 3, l := 4,
                                  lun_arr := lunArrOf 4 } := by
  constructor
  · decide
  · decide

theorem intRepr_natCast (n : Nat) : intRepr (n : Int) = natRepr n := by
  unfold intRepr
  rw [if_neg (by omega)]
  norm_num

theorem tuple2string_plain (h c t l : Nat) (arr : List Nat)
    (hh : h ≠ 32767) :
    tuple2string ⟨(h : Int), (c : Int), (t : Int), l, arr⟩ 15 =
      hctlStr (natRepr h) (natRepr c) (natRepr t)
        (if l = UINT64_LAST then s2l "-1" else natRepr l) := by
  have hnv : ¬((h : Int) = NVME_HOST_NUM) := by
    unfold NVME_HOST_NUM
    omega
  have hcolon : s2l ":-1" = ':' :: s2l "-1" := by decide
  unfold tuple2string
  simp only [hnv, if_false, intRepr_natCast]
  norm_num
  by_cases hl : l = UINT64_LAST
  · simp [hl, hctlStr, hcolon]
  · simp [hl, hctlStr]

/-- C5 (amended).  For every well-formed `h:c:t:l` input with
non-negative in-range integer fields whose host value is not the NVMe
sentinel 32767, parsing, rendering the parsed tuple with all four fields
in plain decimal mode (`sel_mask = 0xf`, no `--lunhex`), and parsing the
rendered string again yields exactly the same tuple.  (For host = 32767
the rendered string starts with the literal `N` and does not re-parse:
see the counterexample.) -/
theorem parse_render_parse_roundtrip :
    ∀ (prior prior2 : addr_hctl) (ds1 ds2 ds3 ds4 : List Char),
      ds1 ≠ [] → (∀ ch ∈ ds1, isDigitC ch = true) →
      ds2 ≠ [] → (∀ ch ∈ ds2, isDigitC ch = true) →
      ds3 ≠ [] → (∀ ch ∈ ds3, isDigitC ch = true) →
      ds4 ≠ [] → (∀ ch ∈ ds4, isDigitC ch = true) →
      digitsVal ds1 < 2 ^ 31 → digitsVal ds1 ≠ 32767 →
      digitsVal ds2 < 2 ^ 31 → digitsVal ds3 < 2 ^ 31 →
      digitsVal ds4 < 2 ^ 64 →
      parse_colon_list (hctlStr ds1 ds2 ds3 ds4) prior =
        some ⟨(digitsVal ds1 : Int), (digitsVal ds2 : Int),
              (digitsVal ds3 : Int), digitsVal ds4,
              lunArrOf (digitsVal ds4)⟩ ∧
      parse_colon_list
          (tuple2string
            ⟨(digitsVal ds1 : Int), (digitsVal ds2 : Int),
             (digitsVal ds3 : Int), digitsVal ds4,
             lunArrOf (digitsVal ds4)⟩ 15) prior2 =
        some ⟨(digitsVal ds1 : Int), (digitsVal ds2 : Int),
              (digitsVal ds3 : Int), digitsVal ds4,
              lunArrOf (digitsVal ds4)⟩ := by
  intro prior prior2 ds1 ds2 ds3 ds4 h1 a1 h2 a2 h3 a3 h4 a4 b1 bn b2 b3 b4
  have hu1 : scanU64 ds4 = some (digitsVal ds4, []) := by
    have h := scanU64_all_digits h4 a4
    rwa [Nat.mod_eq_of_lt b4] at h
  constructor
  · exact parse_colon_list_fourFields_gen prior h1 a1 h2 a2 h3 a3 hu1
  · rw [tuple2string_plain _ _ _ _ _ bn]
    by_cases hl : digitsVal ds4 = UINT64_LAST
    · rw [if_pos hl]
      obtain ⟨hn1, ha1, hv1⟩ := natRepr_all_facts (digitsVal ds1)
      obtain ⟨hn2, ha2, hv2⟩ := natRepr_all_facts (digitsVal ds2)
      obtain ⟨hn3, ha3, hv3⟩ := natRepr_all_facts (digitsVal ds3)
      have hu2 : scanU64 (s2l "-1") = some (UINT64_LAST, []) := by decide
      have h := parse_colon_list_fourFields_gen prior2 hn1 ha1 hn2 ha2 hn3 ha3 hu2
      rw [hv1, hv2, hv3] at h
      rw [h, hl]
    · rw [if_neg hl]
      obtain ⟨hn1, ha1, hv1⟩ := natRepr_all_facts (digitsVal ds1)
      obtain ⟨hn2, ha2, hv2⟩ := natRepr_all_facts (digitsVal ds2)
      obtain ⟨hn3, ha3, hv3⟩ := natRepr_all_facts (digitsVal ds3)
      obtain ⟨hn4, ha4, hv4⟩ := natRepr_all_facts (digitsVal ds4)
      have hu2 := scanU64_all_digits hn4 ha4
      rw [hv4, Nat.mod_eq_of_lt b4] at hu2
      have h := parse_colon_list_fourFields_gen prior2 hn1 ha1 hn2 ha2 hn3 ha3 hu2
      rwa [hv1, hv2, hv3] at h

/-- Witness for C5: the round trip at `1:2:3:4`. -/
theorem parse_render_parse_roundtrip_witness :
    parse_colon_list (hctlStr (s2l "1") (s2l "2") (s2l "3") (s2l "4"))
        invalidate_hctl = some ⟨1, 2, 3, 4, lunArrOf 4⟩ ∧
    parse_colon_list (tuple2string ⟨1, 2, 3, 4, lunArrOf 4⟩ 15)
        invalidate_hctl = some ⟨1, 2, 3, 4, lunArrOf 4⟩ :=
  parse_render_parse_roundtrip invalidate_hctl invalidate_hctl
    (s2l "1") (s2l "2") (s2l "3") (s2l "4")
    (by decide) (by decide) (by decide) (by decide) (by decide) (by decide)
    (by decide) (by decide) (by decide) (by decide) (by decide) (by decide)
    (by decide)

/-- Counterexample for C5 as stated: `"32767:0:0:0"` is a well-formed
tuple of non-negative integers, but its host equals the NVMe sentinel,
so the plain all-field rendering is `N:0:0:0`, which fails to parse:
the round trip does not yield the same field values. -/
theorem roundtrip_nvme_sentinel_counterexample :
    parse_colon_list (s2l "32767:0:0:0") invalidate_hctl =
      some ⟨32767, 0, 0, 0, lunArrOf 0⟩ ∧
    tuple2string ⟨32767, 0, 0, 0, lunArrOf 0⟩ 15 = s2l "N:0:0:0" ∧
    parse_colon_list (s2l "N:0:0:0") invalidate_hctl = none := by
  refine ⟨by decide, by decide, by decide⟩

/-! ### `tag_lun` lemmas. -/

theorem tag_lun_helper_length (arr : List Nat) (kk num : Nat) :
    (tag_lun_helper arr kk num).length = arr.length := by
  unfold tag_lun_helper
  induction num with
  | zero => simp
  | succ m ih =>
    rw [List.range_succ, List.foldl_append]
    simp [ih]

theorem tag_lun_helper_get_lt {arr : List Nat} {kk num i : Nat}
    (h : i < 2 * kk) :
    (tag_lun_helper arr kk num)[i]? = arr[i]? := by
  unfold tag_lun_helper
  induction num with
  | zero => simp
  | succ m ih =>
    rw [List.range_succ, List.foldl_append]
    simp only [List.foldl_cons, List.foldl_nil]
    rw [List.getElem?_set_ne (by omega)]
    exact ih

theorem tag_lun_helper_get_first (arr : List Nat) (kk num : Nat)
    (hlen : 2 * kk < arr.length) (hnum : 0 < num) :
    (tag_lun_helper arr kk num)[2 * kk]? = some (if kk > 0 then 2 else 1) := by
  unfold tag_lun_helper
  induction num with
  | zero => omega
  | succ m ih =>
    rw [List.range_succ, List.foldl_append]
    simp only [List.foldl_cons, List.foldl_nil]
    rcases Nat.eq_zero_or_pos m with hm | hm
    · subst hm
      simp only [List.range_zero, List.foldl_nil, Nat.add_zero, and_true]
      rw [List.getElem?_set_self (by omega)]
    · rw [List.getElem?_set_ne (by omega)]
      exact ih hm

set_option maxHeartbeats 1000000 in
theorem tagLoop_get_lt (lunp : List Nat) :
    ∀ (fuel k : Nat) (arr : List Nat) (i : Nat), i < 2 * k →
      (tagLoop lunp fuel k arr)[i]? = arr[i]? := by
  intro fuel
  induction fuel with
  | zero => intro k arr i _; rfl
  | succ f ih =>
    intro k arr i hi
    show (if (lunp.getD (2 * k) 0 >>> 6) % 4 = 0 then _ else _)[i]? = arr[i]?
    dsimp only
    split_ifs <;>
      first
        | exact tag_lun_helper_get_lt hi
        | (rw [ih (k + 1) _ i (by omega)]; exact tag_lun_helper_get_lt hi)
        | (rw [List.getElem?_set_ne (by omega), List.getElem?_set_ne (by omega)];
           exact tag_lun_helper_get_lt hi)
        | (rw [List.getElem?_set_ne (by omega)])

theorem tagLoop_succ (lunp : List Nat) (f k : Nat) (arr : List Nat) :
    tagLoop lunp (f + 1) k arr =
      (if ((lunp.getD (2 * k) 0) >>> 6) % 4 = 0 then
        (if lunp.getD (2 * k) 0 % 64 ≠ 0 then
           tagLoop lunp f (k + 1) (tag_lun_helper arr k 2)
         else tag_lun_helper arr k 2)
      else if ((lunp.getD (2 * k) 0) >>> 6) % 4 = 1 then tag_lun_helper arr k 2
      else if ((lunp.getD (2 * k) 0) >>> 6) % 4 = 2 then tag_lun_helper arr k 2
      else
        (if (lunp.getD (2 * k) 0 >>> 4) % 4 = 0 ∧
            lunp.getD (2 * k) 0 % 16 = 1 then tag_lun_helper arr k 2
         else if (lunp.getD (2 * k) 0 >>> 4) % 4 = 1 ∧
            lunp.getD (2 * k) 0 % 16 = 2 then tag_lun_helper arr k 4
         else if (lunp.getD (2 * k) 0 >>> 4) % 4 = 2 ∧
            lunp.getD (2 * k) 0 % 16 = 2 then tag_lun_helper arr k 6
         else if (lunp.getD (2 * k) 0 >>> 4) % 4 = 3 ∧
            lunp.getD (2 * k) 0 % 16 = 0xf then
           arr.set (2 * k) (if k > 0 then 2 else 1)
         else if (lunp.getD (2 * k) 0 >>> 4) % 4 < 2 then tag_lun_helper arr k 4
         else if (lunp.getD (2 * k) 0 >>> 4) % 4 = 3 then
           ((tag_lun_helper arr k 6).set (2 * k + 6) 1).set (2 * k + 7) 1
         else tag_lun_helper arr k 6)) := rfl

theorem tag_lun_eq (lunp : List Nat) :
    tag_lun lunp =
      if lunp.getD 0 0 = 0xff ∧ lunp.getD 1 0 = 0xff then
        ((List.replicate 8 0).set 0 1).set 1 1
      else tagLoop lunp 4 0 (List.replicate 8 0) := rfl

set_option maxHeartbeats 2000000 in
/-- C2.  `tag_lun` walks the 8-byte SAM-5 LUN in 2-byte units: a first
unit of `ff ff` short-circuits to tags `1,1,0,0,0,0,0,0`; addressing
methods 1 (flat space) and 2 (logical unit), and method 0 (peripheral)
with zero low 6 bits, consume exactly one unit and stop with those same
tags; method 0 with non-zero low 6 bits (bus id) tags its unit `1,1` and
continues, the next level receiving separator tag 2 at index 2; the
bytes `01 22 00 33 00 00 00 00` produce tags `1,1,2,1,0,0,0,0`, which
the renderer (one `--lunhex`, LUN field only) prints as `0x0122_0033`. -/
theorem tag_lun_sam5 :
    (∀ r : List Nat, tag_lun (0xff :: 0xff :: r) = [1, 1, 0, 0, 0, 0, 0, 0]) ∧
    (∀ (b0 b1 : Nat) (r : List Nat), ¬(b0 = 0xff ∧ b1 = 0xff) →
      ((b0 >>> 6) % 4 = 1 ∨ (b0 >>> 6) % 4 = 2 ∨
        ((b0 >>> 6) % 4 = 0 ∧ b0 % 64 = 0)) →
      tag_lun (b0 :: b1 :: r) = [1, 1, 0, 0, 0, 0, 0, 0]) ∧
    (∀ (b0 b1 b2 b3 : Nat) (r : List Nat), ¬(b0 = 0xff ∧ b1 = 0xff) →
      (b0 >>> 6) % 4 = 0 → b0 % 64 ≠ 0 →
      ((tag_lun (b0 :: b1 :: b2 :: b3 :: r))[0]? = some 1 ∧
       (tag_lun (b0 :: b1 :: b2 :: b3 :: r))[1]? = some 1 ∧
       (tag_lun (b0 :: b1 :: b2 :: b3 :: r))[2]? = some 2)) ∧
    tag_lun [0x01, 0x22, 0x00, 0x33, 0, 0, 0, 0] = [1, 1, 2, 1, 0, 0, 0, 0] ∧
    tuple2string ⟨0, 0, 0, 0, [0x01, 0x22, 0x00, 0x33, 0, 0, 0, 0]⟩ 0x11 =
      s2l "0x0122_0033" := by
  have harr1 : tag_lun_helper (List.replicate 8 0) 0 2 =
      [1, 1, 0, 0, 0, 0, 0, 0] := by decide
  refine ⟨?_, ?_, ?_, by decide, by decide⟩
  · intro r
    rw [tag_lun_eq, if_pos ⟨rfl, rfl⟩]
    decide
  · intro b0 b1 r hff hm
    rw [tag_lun_eq,
      if_neg (show ¬((b0 :: b1 :: r).getD 0 0 = 0xff ∧
        (b0 :: b1 :: r).getD 1 0 = 0xff) from hff)]
    rw [show (4 : Nat) = 3 + 1 from rfl, tagLoop_succ]
    simp only [Nat.mul_zero, List.getD_cons_zero]
    rcases hm with h | h | ⟨h, hb⟩
    · rw [h]
      norm_num [harr1]
    · rw [h]
      norm_num [harr1]
    · rw [h]
      norm_num [hb, harr1]
  · intro b0 b1 b2 b3 r hff h hb
    rw [tag_lun_eq,
      if_neg (show ¬((b0 :: b1 :: b2 :: b3 :: r).getD 0 0 = 0xff ∧
        (b0 :: b1 :: b2 :: b3 :: r).getD 1 0 = 0xff) from hff)]
    rw [show (4 : Nat) = 3 + 1 from rfl, tagLoop_succ]
    simp only [Nat.mul_zero, List.getD_cons_zero, h]
    norm_num [harr1]
    have hfirst : ∀ num : Nat, 0 < num →
        (tag_lun_helper ([1, 1, 0, 0, 0, 0, 0, 0] : List Nat) 1 num)[2]? =
          some 2 := by
      intro num hn
      have := tag_lun_helper_get_first [1, 1, 0, 0, 0, 0, 0, 0] 1 num
        (by norm_num) hn
      simpa using this
    refine ⟨?_, ?_, ?_⟩
    · rw [if_neg hb, tagLoop_get_lt _ 3 1 _ 0 (by omega)]
      decide
    · rw [if_neg hb, tagLoop_get_lt _ 3 1 _ 1 (by omega)]
      decide
    · rw [if_neg hb]
      rw [show (3 : Nat) = 2 + 1 from rfl, tagLoop_succ]
      simp only [show (2 : Nat) * 1 = 2 from rfl,
        show (2 : Nat) + 6 = 8 from rfl, show (2 : Nat) + 7 = 9 from rfl]
      rw [show (b0 :: b1 :: b2 :: b3 :: r).getD 2 0 = b2 from rfl]
      split_ifs <;>
        first
          | exact absurd (by norm_num : (1 : Nat) > 0) (by assumption)
          | exact hfirst 2 (by norm_num)
          | exact hfirst 4 (by norm_num)
          | exact hfirst 6 (by norm_num)
          | (rw [tagLoop_get_lt _ 2 2 _ 2 (by omega)]
             exact hfirst 2 (by norm_num))
          | (rw [List.getElem?_set_self (by norm_num)]; norm_num)
          | (rw [List.getElem?_set_ne (by omega), List.getElem?_set_ne (by omega)]
             exact hfirst 6 (by norm_num))
          | omega

/-- Witness for C2: the flat-space method (`0x40` has addressing method
1) consumes one unit, and the chaining clause at `01 22 00 33 ...`. -/
theorem tag_lun_sam5_witness :
    tag_lun [0x40, 0x05, 0, 0, 0, 0, 0, 0] = [1, 1, 0, 0, 0, 0, 0, 0] ∧
    (tag_lun [0x01, 0x22, 0x00, 0x33, 0, 0, 0, 0])[2]? = some 2 :=
  ⟨tag_lun_sam5.2.1 0x40 0x05 [0, 0, 0, 0, 0, 0] (by decide)
      (Or.inl (by decide)),
   (tag_lun_sam5.2.2.1 0x01 0x22 0x00 0x33 [0, 0, 0, 0] (by decide)
      (by decide) (by decide)).2.2⟩

/-- C4 (code bug).  On NVMe names the parser consumes `c<digits>`
(stored plus one into `t`) and `n<digits>` (stored into `l`):
`nvme0c1n3` yields `{h = 0x7fff, c = 0, t = 2, l = 3}` and `nvme0n3`
leaves `t` at its prior value — but a `p<digits>` suffix ends the loop
with the remaining suffixes unread, because the code's check
`1 == sscanf(colon_list + 1, "%*d%n", &k)` can never hold (`%*d`
suppresses assignment, so `sscanf` returns 0): at `nvme0p1n3` the code
leaves `l` at its prior value instead of consuming `p1` and storing 3,
contradicting the in-code comment "partition number, ignoring
assignment". -/
theorem parse_colon_list_nvme_p_breaks :
    parse_colon_list (s2l "nvme0c1n3") invalidate_hctl =
      some { invalidate_hctl with h := NVME_HOST_NUM, c := 0, t := 2, l := 3 } ∧
    parse_colon_list (s2l "nvme0n3") invalidate_hctl =
      some { invalidate_hctl with h := NVME_HOST_NUM, c := 0, l := 3 } ∧
    parse_colon_list (s2l "nvme0p1n3") invalidate_hctl =
      some { invalidate_hctl with h := NVME_HOST_NUM, c := 0 } := by
  refine ⟨by decide, by decide, by decide⟩

/-- C9 (amended).  The device-scan selection predicate accepts exactly
the names that survive the legacy exclusions (no `mt`/`ot`/`gen`
substring, no `host`/`target` prefix), contain a colon, and — when the
scan filter is active — parse to a tuple agreeing with the filter on
every field that is not the wildcard sentinel (`-1`, or `UINT64_LAST`
for the LUN); unparseable names are rejected. -/
theorem sdev_select_eq_spec (fa : Bool) (flt : addr_hctl) (name : List Char) :
    sdev_dir_scan_select fa flt name = sdev_select_spec fa flt name := by
  unfold sdev_dir_scan_select sdev_select_spec
  cases h1 : containsSub (s2l "mt") name <;>
    cases h2 : containsSub (s2l "ot") name <;>
      cases h3 : containsSub (s2l "gen") name <;>
        cases h4 : (s2l "host").isPrefixOf name <;>
          cases h5 : (s2l "target").isPrefixOf name <;>
            cases h6 : containsChar ':' name <;>
              simp_all

/-- Counterexample for C9 as stated: `target2:0:0:0` contains a colon
(and no filter is active), yet the predicate rejects it because of the
legacy `target` prefix exclusion — acceptance is not exactly
"name contains a colon". -/
theorem sdev_select_colon_only_counterexample :
    containsChar ':' (s2l "target2:0:0:0") = true ∧
    sdev_dir_scan_select false invalidate_hctl (s2l "target2:0:0:0") =
      false := by
  refine ⟨by decide, by decide⟩

/-! ### `get_value` lemmas. -/

theorem takeLine_newline :
    ∀ (pre : List Char) (cap : Nat) (post : List Char), '\n' ∉ pre →
      pre.length < cap → takeLine cap (pre ++ '\n' :: post) = pre ++ ['\n'] := by
  intro pre
  induction pre with
  | nil =>
    intro cap post _ hcap
    cases cap with
    | zero => omega
    | succ cp => simp [takeLine]
  | cons a as ih =>
    intro cap post hnin hcap
    cases cap with
    | zero => omega
    | succ cp =>
      have ha : ¬(a = '\n') := by
        intro he
        exact hnin (by simp [he])
      simp only [List.cons_append, takeLine, ha, if_false]
      exact congrArg (List.cons a)
        (ih cp post (fun hm => hnin (by simp [hm])) (by simp at hcap; omega))

theorem get_value_some {files : List Char → Option (List Char)}
    {dir base content : List Char} {n : Nat} (hne : content ≠ [])
    (hf : files (dir ++ '/' :: base) = some content) :
    get_value files dir base n = some (stripNl (takeLine (n - 1) content)) := by
  unfold get_value
  rw [hf]
  cases content with
  | nil => exact absurd rfl hne
  | cons a as => rfl

/-- C8.  `get_value` opens `dir/name`: a missing file yields "absent"
(`none`, not an error); an existing file's first line is returned with a
single trailing newline stripped — in particular a file holding
`Direct-Access` plus newline yields `Direct-Access`. -/
theorem get_value_reads_first_line :
    (∀ (files : List Char → Option (List Char)) (dir base : List Char)
        (n : Nat), files (dir ++ '/' :: base) = none →
      get_value files dir base n = none) ∧
    (∀ (files : List Char → Option (List Char)) (dir base : List Char)
        (n : Nat) (pre post : List Char),
      files (dir ++ '/' :: base) = some (pre ++ '\n' :: post) →
      '\n' ∉ pre → pre.length + 1 < n →
      get_value files dir base n = some pre) ∧
    get_value filesDA (s2l "/sys/dev") (s2l "model") 164 =
      some (s2l "Direct-Access") := by
  refine ⟨?_, ?_, ?_⟩
  · intro files dir base n hf
    unfold get_value
    rw [hf]
  · intro files dir base n pre post hf hnin hlen
    rw [get_value_some (by cases pre <;> simp) hf]
    rw [takeLine_newline pre (n - 1) post hnin (by omega)]
    unfold stripNl
    rw [if_pos (by rw [List.getLast?_concat])]
    rw [List.dropLast_concat]
  · decide

/-- Witness for C8: the absent-file arm and the first-line arm of the
theorem applied to the one-file tree `filesDA`. -/
theorem get_value_reads_first_line_witness :
    get_value filesDA (s2l "/sys/dev") (s2l "vendor") 164 = none ∧
    get_value filesDA (s2l "/sys/dev") (s2l "model") 200 =
      some (s2l "Direct-Access") :=
  ⟨get_value_reads_first_line.1 filesDA (s2l "/sys/dev") (s2l "vendor") 164
      (by decide),
   get_value_reads_first_line.2.1 filesDA (s2l "/sys/dev") (s2l "model") 200
      (s2l "Direct-Access") [] (by decide) (by decide) (by decide)⟩

/-- C10.  An attribute file that exists but is empty (the first read
returns no line) is reported present with the empty string — the only
observable difference from an absent file is the present/absent result,
never an error. -/
theorem get_value_empty_file :
    (∀ (files : List Char → Option (List Char)) (dir base : List Char)
        (n : Nat), files (dir ++ '/' :: base) = some [] →
      get_value files dir base n = some []) ∧
    get_value filesEmptyFile (s2l "/sys/dev") (s2l "state") 164 = some [] := by
  constructor
  · intro files dir base n hf
    unfold get_value
    rw [hf]
  · decide

/-- Witness for C10: the empty-file arm applied to `filesEmptyFile`. -/
theorem get_value_empty_file_witness :
    get_value filesEmptyFile (s2l "/sys/dev") (s2l "state") 10 = some [] :=
  get_value_empty_file.1 filesEmptyFile (s2l "/sys/dev") (s2l "state") 10
    (by decide)

theorem transport_init_fc_body (fs : Sysfs) (dev : List Char)
    (hspi : fs.isDir (s2l "/sys/class/spi_host/" ++ dev) = false)
    (hfc : fs.isDir (s2l "/sys/class/fc_host/" ++ dev) = true) :
    transport_init fs dev .unknown =
      (let hasOver := fcHasOver fs dev
       let tid2 := if hasOver then TransportId.fcoe else TransportId.fc
       let b2 := if hasOver then s2l "fcoe:" else s2l "fc:"
       match fs.attr (fcDir dev) (s2l "port_name") with
       | none => (false, tid2, b2)
       | some pn =>
         match fs.attr (fcDir dev) (s2l "port_id") with
         | none => (false, tid2, b2 ++ pn ++ [','])
         | some pid => (true, tid2, b2 ++ pn ++ [','] ++ pid)) := by
  unfold transport_init
  rw [hspi, hfc]
  simp only [Bool.false_eq_true, if_false, if_true]
  unfold fcHasOver fcDir
  cases hsym : fs.attr (s2l "/sys/class/fc_host/" ++ dev)
      (s2l "symbolic_name") with
  | none => simp
  | some wd =>
    simp only
    rcases Bool.eq_false_or_eq_true (containsSub (s2l " over ") wd) with
      ho | ho <;> simp [ho]

/-- C7.  When the `fc_host` class directory exists (and the SPI probe
did not match), the classifier records FCoE exactly when the
`symbolic_name` attribute contains `" over "` and plain FC otherwise;
with `port_name` and `port_id` present it succeeds with the two values
appended comma-separated; with `port_name` absent it returns not-found
while the process-wide transport state keeps the already-recorded
FC/FCoE classification (it is not reset to unknown). -/
theorem transport_init_fc_behavior :
    ∀ (fs : Sysfs) (dev : List Char),
      spiMatch fs dev = false → fcMatch fs dev = true →
      ((transport_init fs dev .unknown).2.1 =
        (if fcHasOver fs dev then .fcoe else .fc)) ∧
      (∀ pn pid, fs.attr (fcDir dev) (s2l "port_name") = some pn →
        fs.attr (fcDir dev) (s2l "port_id") = some pid →
        transport_init fs dev .unknown =
          (true, (if fcHasOver fs dev then .fcoe else .fc),
           (if fcHasOver fs dev then s2l "fcoe:" else s2l "fc:") ++
             pn ++ [','] ++ pid)) ∧
      (fs.attr (fcDir dev) (s2l "port_name") = none →
        (transport_init fs dev .unknown).1 = false ∧
        (transport_init fs dev .unknown).2.1 =
          (if fcHasOver fs dev then .fcoe else .fc)) := by
  intro fs dev hspi hfc
  unfold spiMatch at hspi
  unfold fcMatch at hfc
  rw [transport_init_fc_body fs dev hspi hfc]
  dsimp only
  refine ⟨?_, ?_, ?_⟩
  · cases hpn : fs.attr (fcDir dev) (s2l "port_name") with
    | none => simp
    | some pn =>
      cases hpid : fs.attr (fcDir dev) (s2l "port_id") with
      | none => simp
      | some pid => simp
  · intro pn pid hpn hpid
    rw [hpn, hpid]
  · intro hpn
    rw [hpn]
    exact ⟨rfl, rfl⟩

/-- Witness for C7: the success arm on the FCoE tree `fsFcoe` and the
missing-`port_name` arm on `fsFcPartial`. -/
theorem transport_init_fc_behavior_witness :
    transport_init fsFcoe (s2l "host2") .unknown =
      (true, .fcoe, s2l "fcoe:" ++ s2l "0xpn" ++ [','] ++ s2l "0xid") ∧
    ((transport_init fsFcPartial (s2l "host7") .unknown).1 = false ∧
     (transport_init fsFcPartial (s2l "host7") .unknown).2.1 = .fc) := by
  constructor
  · have h := (transport_init_fc_behavior fsFcoe (s2l "host2")
      (by decide) (by decide)).2.1 (s2l "0xpn") (s2l "0xid")
      (by decide) (by decide)
    rwa [show fcHasOver fsFcoe (s2l "host2") = true from by decide,
      if_pos rfl, if_pos rfl] at h
  · have h := (transport_init_fc_behavior fsFcPartial (s2l "host7")
      (by decide) (by decide)).2.2 (by decide)
    rw [show fcHasOver fsFcPartial (s2l "host7") = false from by decide] at h
    simpa using h

/-- C6.  The host transport classifier probes its fixed pseudo-path
templates in priority order SPI, FC/FCoE, SRP, SAS (transport class),
SAS (legacy class), SBP/FireWire, iSCSI, USB, ATA/SATA, returning the
classification of the first probe that matches (with its attribute
reads succeeding); when no probe matches it returns not-found with the
transport state and the summary buffer untouched, so the caller renders
a blank transport field (lsscsi.c:5147 prints the line regardless, with
only a verbose diagnostic). -/
theorem transport_init_priority :
    ∀ (fs : Sysfs) (dev : List Char) (tid0 : TransportId),
      (spiMatch fs dev = true →
        transport_init fs dev tid0 = (true, .spi, s2l "spi:")) ∧
      (spiMatch fs dev = false → fcMatch fs dev = true →
        ∀ pn pid, fs.attr (fcDir dev) (s2l "port_name") = some pn →
          fs.attr (fcDir dev) (s2l "port_id") = some pid →
          (transport_init fs dev .unknown).1 = true ∧
          (transport_init fs dev .unknown).2.1 =
            (if fcHasOver fs dev then .fcoe else .fc)) ∧
      (spiMatch fs dev = false → fcMatch fs dev = false →
        srpMatch fs dev = true →
        (transport_init fs dev tid0).1 = true ∧
        (transport_init fs dev tid0).2.1 = .srp) ∧
      (spiMatch fs dev = false → fcMatch fs dev = false →
        srpMatch fs dev = false → sasMatch fs dev = true →
        ∀ phy v,
          fs.sasLowPhy (s2l "/sys/class/sas_host/" ++ dev ++ s2l "/device") =
            some phy →
          fs.attr (s2l "/sys/class/sas_phy/" ++ phy) (s2l "sas_address") =
            some v →
          transport_init fs dev tid0 = (true, .sas, s2l "sas:" ++ v)) ∧
      (spiMatch fs dev = false → fcMatch fs dev = false →
        srpMatch fs dev = false → sasMatch fs dev = false →
        sasClassMatch fs dev = true →
        ∀ v, fs.attr (s2l "/sys/class/scsi_host/" ++ dev ++ s2l "/device/sas/ha")
            (s2l "device_name") = some v →
          transport_init fs dev tid0 = (true, .sas_class, s2l "sas:" ++ v)) ∧
      (spiMatch fs dev = false → fcMatch fs dev = false →
        srpMatch fs dev = false → sasMatch fs dev = false →
        sasClassMatch fs dev = false →
        ∀ b, sbpStep fs dev = .success b →
          transport_init fs dev tid0 = (true, .sbp, b)) ∧
      (spiMatch fs dev = false → fcMatch fs dev = false →
        srpMatch fs dev = false → sasMatch fs dev = false →
        sasClassMatch fs dev = false → sbpStep fs dev = .noMatch →
        iscsiMatch fs dev = true →
        transport_init fs dev tid0 = (true, .iscsi, s2l "iscsi:")) ∧
      (spiMatch fs dev = false → fcMatch fs dev = false →
        srpMatch fs dev = false → sasMatch fs dev = false →
        sasClassMatch fs dev = false → sbpStep fs dev = .noMatch →
        iscsiMatch fs dev = false →
        ∀ cp, fs.usbDevname dev = some cp →
          transport_init fs dev tid0 = (true, .usb, s2l "usb:" ++ cp)) ∧
      (spiMatch fs dev = false → fcMatch fs dev = false →
        srpMatch fs dev = false → sasMatch fs dev = false →
        sasClassMatch fs dev = false → sbpStep fs dev = .noMatch →
        iscsiMatch fs dev = false → fs.usbDevname dev = none →
        fs.attr (s2l "/sys/class/scsi_host/" ++ dev) (s2l "proc_name") =
          some (s2l "ahci") →
        transport_init fs dev tid0 = (true, .sata, s2l "sata:")) ∧
      (spiMatch fs dev = false → fcMatch fs dev = false →
        srpMatch fs dev = false → sasMatch fs dev = false →
        sasClassMatch fs dev = false → sbpStep fs dev = .noMatch →
        iscsiMatch fs dev = false → fs.usbDevname dev = none →
        ataMatch fs dev = false →
        transport_init fs dev tid0 = (false, tid0, [])) := by
  intro fs dev tid0
  refine ⟨?_, ?_, ?_, ?_, ?_, ?_, ?_, ?_, ?_, ?_⟩
  · intro h1
    unfold spiMatch at h1
    unfold transport_init
    simp [h1]
  · intro h1 h2 pn pid hpn hpid
    unfold spiMatch at h1
    unfold fcMatch at h2
    rw [transport_init_fc_body fs dev h1 h2]
    dsimp only
    rw [hpn, hpid]
    constructor <;> trivial
  · intro h1 h2 h3
    unfold spiMatch at h1
    unfold fcMatch at h2
    unfold srpMatch at h3
    unfold transport_init
    simp only [h1, h2, h3, Bool.false_eq_true, if_false, if_true]
    constructor <;> trivial
  · intro h1 h2 h3 h4 phy v hphy hv
    unfold spiMatch at h1
    unfold fcMatch at h2
    unfold srpMatch at h3
    unfold sasMatch at h4
    unfold transport_init
    simp only [h1, h2, h3, h4, Bool.false_eq_true, if_false, if_true]
    rw [hphy]
    simp only
    rw [hv]
  · intro h1 h2 h3 h4 h5 v hv
    unfold spiMatch at h1
    unfold fcMatch at h2
    unfold srpMatch at h3
    unfold sasMatch at h4
    unfold sasClassMatch at h5
    unfold transport_init
    simp only [h1, h2, h3, h4, h5, Bool.false_eq_true, if_false, if_true]
    rw [hv]
  · intro h1 h2 h3 h4 h5 b hb
    unfold spiMatch at h1
    unfold fcMatch at h2
    unfold srpMatch at h3
    unfold sasMatch at h4
    unfold sasClassMatch at h5
    unfold transport_init
    simp only [h1, h2, h3, h4, h5, Bool.false_eq_true, if_false, if_true]
    rw [hb]
  · intro h1 h2 h3 h4 h5 h6 h7
    unfold spiMatch at h1
    unfold fcMatch at h2
    unfold srpMatch at h3
    unfold sasMatch at h4
    unfold sasClassMatch at h5
    unfold iscsiMatch at h7
    unfold transport_init
    simp only [h1, h2, h3, h4, h5, Bool.false_eq_true, if_false, if_true]
    rw [h6]
    unfold transportTail
    simp [h7]
  · intro h1 h2 h3 h4 h5 h6 h7 cp h8
    unfold spiMatch at h1
    unfold fcMatch at h2
    unfold srpMatch at h3
    unfold sasMatch at h4
    unfold sasClassMatch at h5
    unfold iscsiMatch at h7
    unfold transport_init
    simp only [h1, h2, h3, h4, h5, Bool.false_eq_true, if_false, if_true]
    rw [h6]
    unfold transportTail
    simp only [h7, Bool.false_eq_true, if_false]
    rw [h8]
  · intro h1 h2 h3 h4 h5 h6 h7 h8 h9
    unfold spiMatch at h1
    unfold fcMatch at h2
    unfold srpMatch at h3
    unfold sasMatch at h4
    unfold sasClassMatch at h5
    unfold iscsiMatch at h7
    unfold transport_init
    simp only [h1, h2, h3, h4, h5, Bool.false_eq_true, if_false, if_true]
    rw [h6]
    unfold transportTail
    simp only [h7, Bool.false_eq_true, if_false]
    rw [h8, h9]
    simp
  · intro h1 h2 h3 h4 h5 h6 h7 h8 h9
    unfold spiMatch at h1
    unfold fcMatch at h2
    unfold srpMatch at h3
    unfold sasMatch at h4
    unfold sasClassMatch at h5
    unfold iscsiMatch at h7
    unfold ataMatch at h9
    unfold transport_init
    simp only [h1, h2, h3, h4, h5, Bool.false_eq_true, if_false, if_true]
    rw [h6]
    unfold transportTail
    simp only [h7, Bool.false_eq_true, if_false]
    rw [h8]
    cases hproc : fs.attr (s2l "/sys/class/scsi_host/" ++ dev)
        (s2l "proc_name") with
    | none => rfl
    | some wd =>
      rw [hproc] at h9
      simp only [Bool.or_eq_false_iff] at h9
      obtain ⟨h9a, h9b⟩ := h9
      simp only
      rw [if_neg (by simp [decide_eq_true_eq] at h9a; exact h9a), h9b]
      simp

/-- Witness for C6: the SPI arm on a tree holding only
`class/spi_host/host0`, and the none-match arm on the empty tree. -/
theorem transport_init_priority_witness :
    transport_init fsSpi (s2l "host0") .unknown = (true, .spi, s2l "spi:") ∧
    transport_init fsEmpty (s2l "host3") .unknown =
      (false, .unknown, []) :=
  ⟨(transport_init_priority fsSpi (s2l "host0") .unknown).1 (by decide),
   (transport_init_priority fsEmpty (s2l "host3")
       .unknown).2.2.2.2.2.2.2.2.2 (by decide) (by decide) (by decide)
     (by decide) (by decide) (by decide) (by decide) (by decide) (by decide)⟩

end Lsscsi
